import Mathlib

/-!
Shallow embedding of the character-sheet field engine (`char_sheet/fields.py`):
stats with formula-derived values, bonuses with stacking categories, effects
grouping bonuses under durations, and the recalculation engine.

Modelling conventions:

* Python objects are shared by reference; all Stat/Bonus/Effect instances live
  in one owning context.  The owning `Character` class itself is not part of
  the sources, so the context is modelled from the spec as a registry of
  entities keyed by name together with the three configuration items the spec
  names (allowed bonus types, permanent bonus types, stacking policy).  Object
  aliasing is rendered as name-keyed lookup into the registry, and every
  mutating method becomes a function from the registry to the registry.
* Python exceptions are modelled as an error component returned next to the
  resulting state (Python does not roll back mutations made before a raise,
  so the state at raise time is part of each operation's result).
* Python 3 numbers produced by formula evaluation are modelled as exact
  rationals (`Rat`); the `/` operator is true division, as in Python 3.  The
  floats produced by Python on the magnitudes exercised here are exact, so
  rationals coincide with them.
* Formula text is modelled as an expression tree whose unresolved leaves are
  the `$name` / `#name` aliases of the source; `plug`'s textual `str.replace`
  becomes alias-by-alias substitution, and `calc`'s textual replacement of
  `.value` by `.normal` becomes `toNormal`.  Only the arithmetic fragment of
  Python expressions is embedded (the spec restricts the expression language
  to arithmetic over named values); the `@attr` aliases and the brace forms
  play no role in any claim and are not distinguished from bare aliases.
* The unbounded recursion of `calc` propagation and recursive `unplug` is made
  total with an explicit fuel argument; exhausted fuel is a distinguished
  error that no theorem treats as normal termination.
* Timestamps (`Stat.updated`) are not modelled; no operation reads them.
-/

namespace CharSheet

/-- Python exception kinds surfaced by the engine (`errors.py` itself only
declares the exception classes; the kinds are what matters here).
`formulaError` wraps the exception observed by the `eval` test in
`Stat.plug`; `dependencyError` carries the dependant names; `setChangedError`
is CPython's RuntimeError for a set mutated during iteration; `fuel` is the
artificial out-of-fuel marker of this embedding. -/
inductive PyErr where
  | fuel
  | keyError
  | runtimeError
  | attributeError
  | nameError
  | typeError
  | valueError
  | zeroDivisionError
  | syntaxError
  | setChangedError
  | formulaError (inner : PyErr)
  | dependencyError (names : List String)
  deriving DecidableEq

/-- The two stat-reference sigils of `Stat.VARS`: `$name` reads the referenced
stat's `value`, `#name` reads its `normal`. -/
inductive Sigil where
  | cur
  | nrm
  deriving DecidableEq

/-- Formula expressions.  `ali` is an unresolved `$name`/`#name` alias as it
appears in user-authored formula text; `sref` is the resolved reference that
`Stat.plug` substitutes for it (`self.char.stats["name"].value` resp.
`.normal`).  Evaluating a leftover `ali` fails, matching the exception the
leftover sigil text causes inside Python's `eval`. -/
inductive Expr where
  | lit : Int → Expr
  | ali : Sigil → String → Expr
  | sref : Sigil → String → Expr
  | add : Expr → Expr → Expr
  | sub : Expr → Expr → Expr
  | mul : Expr → Expr → Expr
  | div : Expr → Expr → Expr
  | neg : Expr → Expr
  deriving DecidableEq

/-- `Stat` (fields.py lines 125-176): `formula` is the current (resolved once
plugged) formula, `original` the user-authored one; `bonuses` maps a bonus
type to the bonuses of that type attached to this stat (held by name into the
context registry, modelling Python's shared object references); `uses` and
`usedby` are the dependency edge sets; `char` models the `self.char`
back-reference as an attachment flag.  `prot` renders `protected` (a Lean
keyword).  `updated` is not modelled. -/
structure Stat where
  name : String
  formula : Expr
  original : Expr
  text : String
  bonuses : List (String × List String)
  prot : Bool
  uses : List String
  usedby : List String
  normal : Option Rat
  value : Option Rat
  root : Bool
  leaf : Bool
  char : Bool
  deriving DecidableEq

/-- `Bonus` (fields.py lines 424-455).  `usedby` holds the names of Effects
referencing this bonus (exactly what `Effect.plug` adds). -/
structure Bonus where
  name : String
  value : Int
  stats : List String
  typ : String
  condition : String
  text : String
  active : Bool
  usedby : List String
  last : Bool
  char : Bool
  deriving DecidableEq

/-- `Effect` (fields.py lines 719-743).  The owned `Duration` is inlined as
its remaining and original round counts; `active` is the tri-state flag. -/
structure Effect where
  name : String
  bonuses : List String
  durRounds : Rat
  durOriginal : Rat
  text : String
  active : Option Bool
  last : Option Bool
  char : Bool
  deriving DecidableEq

/-- Modelled from the spec: the owning context (the `Character` class is not
among the sources; spec sections 3 and 6).  It exclusively owns all
Stat/Bonus/Effect instances by name and supplies three configuration items:
`bonusTypes` (`BONUS_TYPES`, allowed bonus categories, empty meaning
unrestricted), `bonusPerm` (`BONUS_PERM`, categories that cannot be
deactivated once unconditional), and the stacking policy `_stacks`, rendered
as membership in `stacksList` (the set of categories that stack). -/
structure Character where
  stats : List (String × Stat)
  bonuses : List (String × Bonus)
  effects : List (String × Effect)
  bonusTypes : List String
  bonusPerm : List String
  stacksList : List String
  deriving DecidableEq

/-- `char.stats[n]` as a partial lookup (first entry with the key). -/
def lookupStat (ch : Character) (n : String) : Option Stat :=
  (ch.stats.find? (fun p => p.1 == n)).map (fun p => p.2)

def lookupBonus (ch : Character) (n : String) : Option Bonus :=
  (ch.bonuses.find? (fun p => p.1 == n)).map (fun p => p.2)

def lookupEffect (ch : Character) (n : String) : Option Effect :=
  (ch.effects.find? (fun p => p.1 == n)).map (fun p => p.2)

/-- Overwrite the entry for `n` in place (field assignment on the shared
object; insertion order of the registry is preserved). -/
def setStat (ch : Character) (n : String) (st : Stat) : Character :=
  { ch with stats := ch.stats.map (fun p => if p.1 == n then (p.1, st) else p) }

def setBonus (ch : Character) (n : String) (b : Bonus) : Character :=
  { ch with bonuses := ch.bonuses.map (fun p => if p.1 == n then (p.1, b) else p) }

def setEffect (ch : Character) (n : String) (e : Effect) : Character :=
  { ch with effects := ch.effects.map (fun p => if p.1 == n then (p.1, e) else p) }

/-- Field assignment on the object registered under `n` (no-op when absent;
all call sites hold the object, so the name is present). -/
def updStat (ch : Character) (n : String) (f : Stat → Stat) : Character :=
  match lookupStat ch n with
  | some st => setStat ch n (f st)
  | none => ch

def updBonus (ch : Character) (n : String) (f : Bonus → Bonus) : Character :=
  match lookupBonus ch n with
  | some b => setBonus ch n (f b)
  | none => ch

def updEffect (ch : Character) (n : String) (f : Effect → Effect) : Character :=
  match lookupEffect ch n with
  | some e => setEffect ch n (f e)
  | none => ch

/-- `set.add`: insert if absent (Python sets are unordered; the list renders
one iteration order). -/
def insertS (x : String) (l : List String) : List String :=
  if l.contains x then l else l ++ [x]

/-- `_stacks` of the owning context, modelled from the spec as membership in
the configured set of stacking categories. -/
def Character.stacksP (ch : Character) (typ : String) : Bool :=
  ch.stacksList.contains typ

def sigilField (sig : Sigil) (st : Stat) : Option Rat :=
  match sig with
  | .cur => st.value
  | .nrm => st.normal

/-- Evaluation of a (resolved) formula against the context, modelling Python's
`eval` of the substituted text: a leftover alias is the syntax error its
sigil causes; a reference to an absent stat is the dict KeyError; reading a
stat whose referenced field is still `None` is the TypeError its use in
arithmetic raises; `/` is Python 3 true division with ZeroDivisionError. -/
def evalE (ch : Character) : Expr → Except PyErr Rat
  | .lit i => .ok i
  | .ali _ _ => .error .syntaxError
  | .sref sig n =>
    match lookupStat ch n with
    | none => .error .keyError
    | some st =>
      match sigilField sig st with
      | some v => .ok v
      | none => .error .typeError
  | .add a b => do
    let x ← evalE ch a
    let y ← evalE ch b
    return x + y
  | .sub a b => do
    let x ← evalE ch a
    let y ← evalE ch b
    return x - y
  | .mul a b => do
    let x ← evalE ch a
    let y ← evalE ch b
    return x * y
  | .div a b => do
    let x ← evalE ch a
    let y ← evalE ch b
    if y == 0 then .error .zeroDivisionError else return x / y
  | .neg a => do
    let x ← evalE ch a
    return (-x)

/-- Stat names read by resolved references of an expression. -/
def readsE : Expr → List String
  | .lit _ => []
  | .ali _ _ => []
  | .sref _ n => [n]
  | .add a b => readsE a ++ readsE b
  | .sub a b => readsE a ++ readsE b
  | .mul a b => readsE a ++ readsE b
  | .div a b => readsE a ++ readsE b
  | .neg a => readsE a

/-- `self.formula.replace('.value','.normal')` of `Stat.calc`: every resolved
current-value reference becomes a normal reference. -/
def toNormal : Expr → Expr
  | .sref .cur n => .sref .nrm n
  | .add a b => .add (toNormal a) (toNormal b)
  | .sub a b => .sub (toNormal a) (toNormal b)
  | .mul a b => .mul (toNormal a) (toNormal b)
  | .div a b => .div (toNormal a) (toNormal b)
  | .neg a => .neg (toNormal a)
  | e => e

/-- One `str.replace` pass of `Stat.plug`: resolve every alias with this
sigil and name. -/
def substAli (sig : Sigil) (n : String) : Expr → Expr
  | .ali s m => if s == sig && m == n then .sref s m else .ali s m
  | .add a b => .add (substAli sig n a) (substAli sig n b)
  | .sub a b => .sub (substAli sig n a) (substAli sig n b)
  | .mul a b => .mul (substAli sig n a) (substAli sig n b)
  | .div a b => .div (substAli sig n a) (substAli sig n b)
  | .neg a => .neg (substAli sig n a)
  | e => e

/-- Whether a replacement would happen (`s != orig` in `Stat.plug`). -/
def containsAli (sig : Sigil) (n : String) : Expr → Bool
  | .ali s m => s == sig && m == n
  | .add a b => containsAli sig n a || containsAli sig n b
  | .sub a b => containsAli sig n a || containsAli sig n b
  | .mul a b => containsAli sig n a || containsAli sig n b
  | .div a b => containsAli sig n a || containsAli sig n b
  | .neg a => containsAli sig n a
  | _ => false

/-- Python's `max` on a list of ints (call sites guarantee non-emptiness). -/
def pyMax : List Int → Int
  | [] => 0
  | x :: xs => xs.foldl max x

/-- `[b.get_value() for b in bonuses if b.active]`: the values of the active
bonuses of one category, resolved through the registry (`get_value` returns
the stored value). -/
def activeValues (ch : Character) (names : List String) : List Int :=
  names.filterMap (fun bn =>
    match lookupBonus ch bn with
    | some b => if b.active then some b.value else none
    | none => none)

/-- One category's contribution as the spec words it: the sum of the active
values when the category stacks, the maximum single active value when it does
not, and nothing when no bonus of the category is active. -/
def categoryContribution (ch : Character) (typ : String) (names : List String) : Int :=
  let vs := activeValues ch names
  if vs.isEmpty then 0
  else if ch.stacksP typ then vs.sum else pyMax vs

/-- Sum of the per-category contributions over a stat's bonus map. -/
def totalContribution (ch : Character) (bl : List (String × List String)) : Int :=
  (bl.map (fun p => categoryContribution ch p.1 p.2)).sum

/-- The bonus-folding loop of `Stat.calc` (lines 274-281), exactly as the code
runs it: iterate the per-type map, skip types with no active bonus, add the
sum for stacking types and the maximum otherwise. -/
def applyBonuses (ch : Character) (bl : List (String × List String)) (base : Rat) : Rat :=
  bl.foldl (fun v p =>
    let vs := activeValues ch p.2
    if vs.isEmpty then v
    else if ch.stacksP p.1 then v + (vs.sum : Rat) else v + (pyMax vs : Rat)) base

/-- Run `step` over a list of names, stopping at the first raised exception
(`for name in ...: step(name)`). -/
def runList (step : Character → String → Character × Option PyErr) :
    Character → List String → Character × Option PyErr
  | ch, [] => (ch, none)
  | ch, d :: rest =>
    match step ch d with
    | (ch1, none) => runList step ch1 rest
    | r => r

/-- One `Stat.calc` invocation (lines 262-287); `rec` performs the recursive
propagation to dependants.  The two `eval`s run in the order of the code:
`normal` is assigned before the with-bonuses evaluation.  If neither output
changed, no propagation happens (fixed-point short-circuit). -/
def calcStep (rec : Character → String → Character × Option PyErr)
    (ch : Character) (n : String) : Character × Option PyErr :=
  match lookupStat ch n with
  | none => (ch, some .keyError)
  | some st =>
    if !st.char then (ch, some .runtimeError)
    else
      let old_v := st.value
      let old_n := st.normal
      match evalE ch (toNormal st.formula) with
      | .error e => (ch, some e)
      | .ok nm =>
        let ch1 := setStat ch n { st with normal := some nm }
        match evalE ch1 st.formula with
        | .error e => (ch1, some e)
        | .ok base =>
          let v := applyBonuses ch1 st.bonuses base
          let ch2 := setStat ch1 n { st with normal := some nm, value := some v }
          if old_v ≠ some v ∨ old_n ≠ some nm then runList rec ch2 st.usedby
          else (ch2, none)

/-- `Stat.calc` with fuel bounding the propagation depth. -/
def calcFuel : Nat → Character → String → Character × Option PyErr
  | 0 => fun ch _ => (ch, some .fuel)
  | f + 1 => calcStep (calcFuel f)

/-- The fields of a `Stat` other than `value` and `normal` - everything
`calc` must leave untouched. -/
structure StatSkel where
  name : String
  formula : Expr
  original : Expr
  text : String
  bonuses : List (String × List String)
  prot : Bool
  uses : List String
  usedby : List String
  root : Bool
  leaf : Bool
  char : Bool
  deriving DecidableEq

def Stat.skel (st : Stat) : StatSkel :=
  { name := st.name, formula := st.formula, original := st.original, text := st.text
    bonuses := st.bonuses, prot := st.prot, uses := st.uses, usedby := st.usedby
    root := st.root, leaf := st.leaf, char := st.char }

/-- `ch1` differs from `ch0` at most in the `value`/`normal` fields of its
stats: same registries, same configuration, same stat keys, same stat
skeletons. -/
def statsSkelEq (ch0 ch1 : Character) : Prop :=
  ch1.bonuses = ch0.bonuses ∧ ch1.effects = ch0.effects ∧
  ch1.bonusTypes = ch0.bonusTypes ∧ ch1.bonusPerm = ch0.bonusPerm ∧
  ch1.stacksList = ch0.stacksList ∧
  ch1.stats.map Prod.fst = ch0.stats.map Prod.fst ∧
  ∀ m, (lookupStat ch1 m).map Stat.skel = (lookupStat ch0 m).map Stat.skel

/-- A stat's `usedby` edge list (empty when absent). -/
def usedbyOf (ch : Character) (n : String) : List String :=
  match lookupStat ch n with
  | some st => st.usedby
  | none => []

/-- The stats a `calc` wave started at `n` with the given fuel can touch:
`n` itself and, recursively, everything reachable from its dependants. -/
def reachUpTo : Nat → Character → String → List String
  | 0, _, n => [n]
  | f + 1, ch, n => n :: (usedbyOf ch n).flatMap (reachUpTo f ch)

/-- The pair of fields `evalE` reads from a stat. -/
def vnOf (st : Stat) : Option Rat × Option Rat :=
  (st.value, st.normal)

/-- The body of the alias-scanning loop of `Stat.plug` for one stat name `m`:
for each sigil (the `VARS` order is the current-value sigil first), replace
the alias, and when a replacement happened record `m` in `uses`, clear
`root`, and remember the referenced stat for the later `usedby` update.
The accumulator is (formula so far, `self.uses`, `self.root`, recorded
referenced stats). -/
def resolveName (m : String)
    (acc : Expr × List String × Bool × List String) :
    Expr × List String × Bool × List String :=
  let c1 := containsAli .cur m acc.1
  let e1 := substAli .cur m acc.1
  let us1 := if c1 then insertS m acc.2.1 else acc.2.1
  let rt1 := if c1 then false else acc.2.2.1
  let ub1 := if c1 then insertS m acc.2.2.2 else acc.2.2.2
  let c2 := containsAli .nrm m e1
  let e2 := substAli .nrm m e1
  let us2 := if c2 then insertS m us1 else us1
  let rt2 := if c2 then false else rt1
  let ub2 := if c2 then insertS m ub1 else ub1
  (e2, us2, rt2, ub2)

/-- The `usedby`-registration loop of `Stat.plug` (lines 210-212): add this
stat's name to each referenced stat's `usedby` and clear its `leaf` flag. -/
def addEdges (n : String) (ub : List String) (ch : Character) : Character :=
  ub.foldl (fun c m =>
    updStat c m (fun u => { u with usedby := insertS n u.usedby, leaf := false })) ch

/-- `Stat.plug` (lines 179-215).  The mutation order of the code is kept:
`self.char` is bound and `self.uses`/`self.root` are updated by the scanning
loop before the `eval` test runs, so a `FormulaError` leaves those fields
mutated; the `usedby` edges of referenced stats and `self.formula` are only
written after the test passes, and the method ends with a full `calc`. -/
def plugFuel (f : Nat) (ch : Character) (n : String) : Character × Option PyErr :=
  match lookupStat ch n with
  | none => (ch, some .keyError)
  | some st0 =>
    let st := { st0 with char := true }
    let r := ch.stats.foldl (fun acc p => resolveName p.1 acc)
      (st.formula, st.uses, st.root, ([] : List String))
    let st1 := { st with uses := r.2.1, root := r.2.2.1 }
    let ch1 := setStat ch n st1
    match evalE ch1 r.1 with
    | .error e => (ch1, some (.formulaError e))
    | .ok _ =>
      let ch2 := addEdges n r.2.2.2 ch1
      let ch3 := updStat ch2 n (fun u => { u with formula := r.1 })
      calcFuel f ch3 n

/-- Current size of a stat's `usedby` set (the `used` counter CPython's set
iterator compares against). -/
def usedbyLen (ch : Character) (n : String) : Nat :=
  match lookupStat ch n with
  | some st => st.usedby.length
  | none => 0

/-- The `for name in self.usedby` loop of recursive `unplug`, with CPython's
set-iterator semantics: every `next()` call - including the final one that
would end the loop - first checks whether the set's size changed since the
iterator was created and raises RuntimeError if so.  Each dependant's
`unplug` removes itself from this very set, so the check fires. -/
def iterUnplug (rec : Character → String → Character × Option PyErr)
    (selfN : String) (n0 : Nat) : Character → List String → Character × Option PyErr
  | ch, [] =>
    if usedbyLen ch selfN ≠ n0 then (ch, some .setChangedError) else (ch, none)
  | ch, d :: rest =>
    if usedbyLen ch selfN ≠ n0 then (ch, some .setChangedError)
    else
      match rec ch d with
      | (ch1, none) => iterUnplug rec selfN n0 ch1 rest
      | r => r

/-- The `for name in self.uses` loop of `unplug`: remove this stat from each
used stat's `usedby` (`set.remove` raises KeyError when absent) and restore
that stat's `leaf` flag when its `usedby` became empty. -/
def removeUses (selfN : String) : Character → List String → Character × Option PyErr
  | ch, [] => (ch, none)
  | ch, u :: rest =>
    match lookupStat ch u with
    | none => (ch, some .keyError)
    | some st =>
      if st.usedby.contains selfN then
        let st1 := { st with usedby := st.usedby.filter (fun x => x != selfN) }
        let st2 := if st1.usedby.isEmpty then { st1 with leaf := true } else st1
        removeUses selfN (setStat ch u st2) rest
      else (ch, some .keyError)

/-- One `Stat.unplug` invocation (lines 222-248); `rec` performs the
recursive unplug of dependants (which the code calls with default `force`
and `recursive=True`). -/
def unplugStep (rec : Character → String → Character × Option PyErr)
    (ch : Character) (n : String) (force recursive : Bool) : Character × Option PyErr :=
  match lookupStat ch n with
  | none => (ch, some .keyError)
  | some st =>
    if !st.char then (ch, some .runtimeError)
    else if !st.usedby.isEmpty && !force && !recursive then
      (ch, some (.dependencyError st.usedby))
    else
      let r := if recursive then iterUnplug rec n st.usedby.length ch st.usedby
        else (ch, none)
      match r with
      | (ch1, some e) => (ch1, some e)
      | (ch1, none) =>
        let ch2 := updStat ch1 n (fun u => { u with usedby := [] })
        let ch2b := updStat ch2 n (fun u => { u with formula := u.original })
        let uses := match lookupStat ch2b n with
          | some u => u.uses
          | none => []
        match removeUses n ch2b uses with
        | (ch3, some e) => (ch3, some e)
        | (ch3, none) =>
          (updStat ch3 n (fun u =>
            { u with uses := [], root := true, leaf := true, char := false }), none)

/-- `Stat.unplug` with fuel bounding the recursive-detach depth. -/
def unplugFuel : Nat → Character → String → Bool → Bool → Character × Option PyErr
  | 0 => fun ch _ _ _ => (ch, some .fuel)
  | f + 1 => fun ch n force recursive =>
    unplugStep (fun c m => unplugFuel f c m false true) ch n force recursive

/-- The `Bonus` constructor (lines 443-455): a condition forces `active`
false; `typ` defaults to `none` and is lower-cased; `last` records the
constructor's `active` argument. -/
def mkBonus (name : String) (value : Int) (stats : List String)
    (typ : Option String) (cond : Option String) (active : Bool) : Bonus :=
  { name := name
    value := value
    stats := stats
    text := ""
    active := if (cond.getD "") ≠ "" then false else active
    typ := (typ.getD "none").toLower
    condition := cond.getD ""
    usedby := []
    last := active
    char := false }

/-- `Stat.add_bonus` (lines 291-297) on the per-type bonus map. -/
def addBonusEntry (bl : List (String × List String)) (typ bn : String) :
    List (String × List String) :=
  if bl.any (fun p => p.1 == typ) then
    bl.map (fun p => if p.1 == typ then (p.1, p.2 ++ [bn]) else p)
  else bl ++ [(typ, [bn])]

/-- `Bonus.calc` (lines 490-493): recompute every target stat. -/
def bonusCalc (f : Nat) (ch : Character) (bn : String) : Character × Option PyErr :=
  match lookupBonus ch bn with
  | none => (ch, some .keyError)
  | some b => runList (calcFuel f) ch b.stats

/-- `Bonus.toggle` (lines 506-513): a no-op for an unconditional bonus of a
permanent category; otherwise record `last`, set `active`, recompute.  An
unplugged bonus has `self.char = None`, so reading `self.char.BONUS_PERM`
raises AttributeError. -/
def bonusToggle (f : Nat) (ch : Character) (bn : String) (new : Bool) :
    Character × Option PyErr :=
  match lookupBonus ch bn with
  | none => (ch, some .keyError)
  | some b =>
    if !b.char then (ch, some .attributeError)
    else if b.condition == "" && ch.bonusPerm.contains b.typ then (ch, none)
    else
      let ch1 := setBonus ch bn { b with last := b.active, active := new }
      bonusCalc f ch1 bn

/-- `Bonus.on`. -/
def bonusOn (f : Nat) (ch : Character) (bn : String) : Character × Option PyErr :=
  bonusToggle f ch bn true

/-- `Bonus.off` (lines 499-503).  The guard is
`force or not reduce(lambda a,b: a or b.is_active(), self.usedby, False)`:
over an empty `usedby` the reduce returns the initial `False`, so the bonus
toggles off; but `usedby` holds effect NAMES (strings - `Effect.plug` adds
`self.name`), so with a non-empty `usedby` and no `force` the first reduce
step calls `is_active()` on a `str` and raises AttributeError. -/
def bonusOff (f : Nat) (ch : Character) (bn : String) (force : Bool) :
    Character × Option PyErr :=
  match lookupBonus ch bn with
  | none => (ch, some .keyError)
  | some b =>
    if force then bonusToggle f ch bn false
    else if b.usedby.isEmpty then bonusToggle f ch bn false
    else (ch, some .attributeError)

/-- `Bonus.revert` (lines 517-522): restore `active` to `last` when they
differ and recompute.  Note there is no permanent-category guard here. -/
def bonusRevert (f : Nat) (ch : Character) (bn : String) : Character × Option PyErr :=
  match lookupBonus ch bn with
  | none => (ch, some .keyError)
  | some b =>
    if b.active == b.last then (ch, none)
    else
      let ch1 := setBonus ch bn { b with active := b.last }
      bonusCalc f ch1 bn

/-- The per-stat attach loop of `Bonus.plug`: add to the stat's bonus map and
recompute it. -/
def bonusAttach (f : Nat) (typ bn : String) :
    Character → List String → Character × Option PyErr
  | ch, [] => (ch, none)
  | ch, s :: rest =>
    match lookupStat ch s with
    | none => (ch, some .keyError)
    | some st =>
      let ch1 := setStat ch s { st with bonuses := addBonusEntry st.bonuses typ bn }
      match calcFuel f ch1 s with
      | (ch2, none) => bonusAttach f typ bn ch2 rest
      | (ch2, some e) => (ch2, some e)

/-- `Bonus.plug` (lines 459-473): validate the type against `BONUS_TYPES`
(empty meaning unrestricted), attach to each target stat with a recompute,
bind the character, and finally force `active` for an unconditional bonus of
a permanent category (no recompute accompanies that forcing). -/
def bonusPlug (f : Nat) (ch : Character) (bn : String) : Character × Option PyErr :=
  match lookupBonus ch bn with
  | none => (ch, some .keyError)
  | some b =>
    if !ch.bonusTypes.isEmpty && !ch.bonusTypes.contains b.typ then
      (ch, some .valueError)
    else
      match bonusAttach f b.typ bn ch b.stats with
      | (ch1, some e) => (ch1, some e)
      | (ch1, none) =>
        let ch2 := updBonus ch1 bn (fun x => { x with char := true })
        let ch3 :=
          if b.condition == "" && ch.bonusPerm.contains b.typ then
            updBonus ch2 bn (fun x => { x with active := true })
          else ch2
        (ch3, none)

/-- `Effect.is_active` (lines 770-774): the explicit tri-state when set,
otherwise whether the duration has not expired. -/
def effectIsActive (e : Effect) : Bool :=
  match e.active with
  | some b => b
  | none => !(e.durRounds == 0)

/-- The per-bonus loop of `Effect.plug`: register this effect in the bonus's
`usedby`, then toggle the bonus to match a non-unset tri-state. -/
def effectPlugLoop (f : Nat) (en : String) (act : Option Bool) :
    Character → List String → Character × Option PyErr
  | ch, [] => (ch, none)
  | ch, bn :: rest =>
    match lookupBonus ch bn with
    | none => (ch, some .keyError)
    | some b =>
      let ch1 := setBonus ch bn { b with usedby := insertS en b.usedby }
      let r := match act with
        | none => (ch1, none)
        | some true => bonusOn f ch1 bn
        | some false => bonusOff f ch1 bn false
      match r with
      | (ch2, none) => effectPlugLoop f en act ch2 rest
      | r2 => r2

/-- `Effect.plug` (lines 745-755). -/
def effectPlug (f : Nat) (ch : Character) (en : String) : Character × Option PyErr :=
  match lookupEffect ch en with
  | none => (ch, some .keyError)
  | some e =>
    match effectPlugLoop f en e.active ch e.bonuses with
    | (ch1, some err) => (ch1, some err)
    | (ch1, none) => (updEffect ch1 en (fun x => { x with char := true }), none)

/-- `Effect.unplug` (lines 758-767).  Its loop body reads `char.bonuses[name]`
where `char` is an unbound global name (the parameterless method only has
`self.char`), so the first iteration raises NameError before mutating
anything; only an effect with no bonuses completes and clears its binding. -/
def effectUnplug (ch : Character) (en : String) : Character × Option PyErr :=
  match lookupEffect ch en with
  | none => (ch, some .keyError)
  | some e =>
    if !e.char then (ch, some .runtimeError)
    else
      match e.bonuses with
      | [] => (updEffect ch en (fun x => { x with char := false }), none)
      | _ :: _ => (ch, some .nameError)

/-! ## Duration (fields.py lines 564-710) -/

/-- A unit multiplier from `Duration.UNITS`: either a fixed round count or a
live stat lookup (`$level` / `$caster_level`). -/
inductive UnitVal where
  | mult : Nat → UnitVal
  | stat : String → UnitVal
  deriving DecidableEq

/-- `Duration.UNITS` in its insertion order. -/
def UNITS : List (List String × UnitVal) :=
  [ (["", "r", "rd", "rds", "rnd", "rnds", "round", "rounds"], .mult 1)
  , (["m", "mi", "min", "mins", "minute", "minutes"], .mult 10)
  , (["h", "hr", "hrs", "hour", "hours"], .mult 600)
  , (["d", "day", "days"], .mult 14400)
  , (["y", "yr", "yrs", "year", "years"], .mult 5259600)
  , (["l", "lvl", "level"], .stat "level")
  , (["cl", "clvl", "caster", "casterlvl", "casterlevel"], .stat "caster_level") ]

/-- `Duration.get_mult`: the multiplier of a unit name, KeyError if unknown. -/
def getMult (s : String) : Except PyErr UnitVal :=
  match UNITS.find? (fun p => p.1.contains s) with
  | some p => .ok p.2
  | none => .error .keyError

/-- `Duration.split_unit`: split a term into its leading digits (defaulting
to `1`) and the unit name. -/
def splitUnit (s : String) : String × String :=
  let ds := s.toList.takeWhile (fun c => c.isDigit)
  let rest := s.toList.dropWhile (fun c => c.isDigit)
  (if ds.isEmpty then "1" else String.mk ds, String.mk rest)

/-- `Duration.to_rds` normalization: lower-case, drop spaces and
underscores. -/
def normDur (s : String) : String :=
  String.mk (s.toLower.toList.filter (fun c => c != ' ' && c != '_'))

/-- `Duration.INF_NAMES` (the `None` member is handled by `Option`). -/
def INF_NAMES : List String :=
  ["inf", "infinity", "infinite", "perm", "permanent", "forever"]

/-- One `+`-separated term of a duration expression, as `to_rds` assembles it
into `num*mult` optionally extended by `*max(1,int(mult2/num2))`. -/
structure DTerm where
  num : Nat
  unit : UnitVal
  per : Option (Nat × UnitVal)
  deriving DecidableEq

/-- Parse one `+`-term of `Duration.to_rds`: too many `/` is a ValueError;
each side splits into count and unit. -/
def toRdsTerm (dur : String) : Except PyErr DTerm :=
  if dur.toList.count '/' > 1 then .error .valueError
  else
    match dur.splitOn "/" with
    | [p0] => do
      let q := splitUnit p0
      let m ← getMult q.2
      .ok { num := q.1.toNat?.getD 0, unit := m, per := none }
    | [p0, p1] => do
      let q := splitUnit p0
      let m ← getMult q.2
      let q2 := splitUnit p1
      let m2 ← getMult q2.2
      .ok { num := q.1.toNat?.getD 0, unit := m, per := some (q2.1.toNat?.getD 0, m2) }
    | _ => .error .valueError

/-- `Duration.to_rds` (lines 617-646), producing the structured terms whose
evaluation is the fixed Python expression `to_rds` builds; `none` is the
infinite sentinel (absent text or an `INF_NAMES` member). -/
def toRds (s : Option String) : Except PyErr (Option (List DTerm)) :=
  match s with
  | none => .ok none
  | some str =>
    let t := normDur str
    if INF_NAMES.contains t then .ok none
    else ((t.splitOn "+").mapM toRdsTerm).map some

def unitIsStat : UnitVal → Bool
  | .mult _ => false
  | .stat _ => true

/-- Whether a term's generated text mentions `char.stats` (the guard of
`Duration.parse`). -/
def termNeedsStat (t : DTerm) : Bool :=
  unitIsStat t.unit ||
    (match t.per with
     | some p => unitIsStat p.2
     | none => false)

/-- A unit's numeric value: fixed multiplier, or `char.stats[name].value`. -/
def evalUnit (ch : Character) : UnitVal → Except PyErr Rat
  | .mult k => .ok (k : Rat)
  | .stat nm =>
    match lookupStat ch nm with
    | none => .error .keyError
    | some st =>
      match st.value with
      | some v => .ok v
      | none => .error .typeError

/-- Python's `int()` on a number: truncation toward zero. -/
def pyTrunc (q : Rat) : Int :=
  if 0 ≤ q then ⌊q⌋ else ⌈q⌉

/-- Evaluate one term: `num*mult` optionally times `max(1,int(mult2/num2))`
(true division, then `int()`; a zero `num2` is the ZeroDivisionError Python
would raise). -/
def evalTerm (ch : Character) (t : DTerm) : Except PyErr Rat := do
  let u ← evalUnit ch t.unit
  let base : Rat := (t.num : Rat) * u
  match t.per with
  | none => return base
  | some p => do
    let u2 ← evalUnit ch p.2
    if (p.1 : Rat) == 0 then .error .zeroDivisionError
    else return base * ((max 1 (pyTrunc (u2 / (p.1 : Rat))) : Int) : Rat)

/-- A context with no entries, used to evaluate duration terms that reference
no stats (their evaluation never reads it). -/
def emptyCharacter : Character :=
  { stats := [], bonuses := [], effects := []
    bonusTypes := [], bonusPerm := [], stacksList := [] }

/-- `Duration.parse` (lines 652-664): convert the text to terms, raise
ValueError when a stat-based unit appears without a context, and evaluate
once to a fixed round count (`-1` is the infinite sentinel). -/
def durationParse (s : Option String) (ch : Option Character) : Except PyErr Rat := do
  match ← toRds s with
  | none => return (-1)
  | some terms =>
    if terms.any termNeedsStat && ch.isNone then .error .valueError
    else do
      let vs ← terms.mapM (evalTerm (ch.getD emptyCharacter))
      return vs.sum

/-- The round counts a `Duration` object tracks. -/
structure Duration where
  rounds : Rat
  original : Rat
  deriving DecidableEq

/-- The `INF` sentinel. -/
def INF : Rat := -1

/-- The `Duration` constructor: parse once, remember the total. -/
def mkDuration (s : Option String) (ch : Option Character) : Except PyErr Duration := do
  let v ← durationParse s ch
  return { rounds := v, original := v }

/-- `Duration.advance` (lines 676-686) with an integer argument: an infinite
duration never changes and never reports expiry; otherwise the remaining
rounds drop by `dur`, clamped at zero, and the call reports `expired()`. -/
def durationAdvance (d : Duration) (dur : Int) : Duration × Bool :=
  if d.rounds == INF then (d, false)
  else
    let r := max 0 (d.rounds - (dur : Rat))
    ({ d with rounds := r }, r == 0)

/-- `Duration.expired`. -/
def durationExpired (d : Duration) : Bool :=
  d.rounds == 0

/-! ## Concrete scenario states

All plugged states are produced by running the embedded operations from
detached entities, so they are exactly the states the code builds. -/

/-- The `Stat` constructor (lines 150-176) for a detached stat. -/
def mkStat (name : String) (formula : Expr) : Stat :=
  { name := name
    formula := formula
    original := formula
    text := ""
    bonuses := []
    prot := name.startsWith "_"
    uses := []
    usedby := []
    normal := none
    value := none
    root := true
    leaf := true
    char := false }

/-- The spec's scenario context: root stat `dexterity` with formula `17` and
a stat `dex` with formula `($dexterity-10)/2`, both detached. -/
def c4ch0 : Character :=
  { stats :=
      [ ("dexterity", mkStat "dexterity" (.lit 17))
      , ("dex", mkStat "dex" (.div (.sub (.ali .cur "dexterity") (.lit 10)) (.lit 2))) ]
    bonuses := []
    effects := []
    bonusTypes := []
    bonusPerm := []
    stacksList := [] }

/-- After plugging `dexterity`. -/
def c4ch1 : Character := (plugFuel 2 c4ch0 "dexterity").1

/-- After also plugging `dex`. -/
def c4ch2 : Character := (plugFuel 2 c4ch1 "dex").1

/-- An `ac` stat, a `+4 mage_armor` bonus targeting it, and a `spell` effect
referencing the bonus whose duration is already expired (0 rounds), so the
effect reports `is_active()` false. -/
def c8ch0 : Character :=
  { stats := [("ac", mkStat "ac" (.lit 10))]
    bonuses := [("mage_armor", mkBonus "mage_armor" 4 ["ac"] (some "armor") none true)]
    effects :=
      [ ("spell",
         { name := "spell", bonuses := ["mage_armor"], durRounds := 0
           durOriginal := 0, text := "", active := none, last := none, char := false }) ]
    bonusTypes := []
    bonusPerm := []
    stacksList := [] }

/-- After plugging `ac`. -/
def c8ch1 : Character := (plugFuel 2 c8ch0 "ac").1

/-- After plugging the bonus. -/
def c8ch2 : Character := (bonusPlug 2 c8ch1 "mage_armor").1

/-- After plugging the effect (tri-state unset, so no toggle happens). -/
def c8ch3 : Character := (effectPlug 2 c8ch2 "spell").1

/-- A context whose only stat is a plugged `caster_level` valued 6. -/
def chCL6 : Character :=
  { stats :=
      [ ("caster_level",
         { mkStat "caster_level" (.lit 6) with value := some 6, normal := some 6, char := true }) ]
    bonuses := []
    effects := []
    bonusTypes := []
    bonusPerm := []
    stacksList := [] }

/-- A context with a plugged stat `a` (value 17) and a detached stat `b`
whose formula references both the known stat `a` and an unknown alias. -/
def c3ch0 : Character :=
  { stats :=
      [ ("a", mkStat "a" (.lit 17))
      , ("b", mkStat "b" (.add (.ali .cur "a") (.ali .cur "zzz"))) ]
    bonuses := []
    effects := []
    bonusTypes := []
    bonusPerm := []
    stacksList := [] }

/-- After plugging `a`. -/
def c3ch1 : Character := (plugFuel 2 c3ch0 "a").1

/-- The bonus map of the C1 witness stat: a stacking category `dodge` holding
active bonuses valued 2, 3, 5 plus an inactive one valued 100, and a
non-stacking category `armor` holding active bonuses valued 2, 3, 5. -/
def c1bl : List (String × List String) :=
  [("dodge", ["d1", "d2", "d3", "d0"]), ("armor", ["a1", "a2", "a3"])]

/-- A plugged `ac` stat (formula `10`) carrying the two bonus categories. -/
def c1ac : Stat :=
  { mkStat "ac" (.lit 10) with char := true, bonuses := c1bl }

/-- The C1 witness context: only `dodge` stacks. -/
def c1ch : Character :=
  { stats := [("ac", c1ac)]
    bonuses :=
      [ ("d1", { mkBonus "d1" 2 ["ac"] (some "dodge") none true with char := true })
      , ("d2", { mkBonus "d2" 3 ["ac"] (some "dodge") none true with char := true })
      , ("d3", { mkBonus "d3" 5 ["ac"] (some "dodge") none true with char := true })
      , ("d0", { mkBonus "d0" 100 ["ac"] (some "dodge") none false with char := true })
      , ("a1", { mkBonus "a1" 2 ["ac"] (some "armor") none true with char := true })
      , ("a2", { mkBonus "a2" 3 ["ac"] (some "armor") none true with char := true })
      , ("a3", { mkBonus "a3" 5 ["ac"] (some "armor") none true with char := true }) ]
    effects := []
    bonusTypes := []
    bonusPerm := []
    stacksList := ["dodge"] }

/-- The C2 witness context: a plugged root `dexterity` (formula `17`) with
stale cached values 0, and a plugged dependant `dex` with the resolved
formula `($dexterity-10)/2`, also stale. -/
def c2dexterity : Stat :=
  { mkStat "dexterity" (.lit 17) with
      char := true, usedby := ["dex"], leaf := false, value := some 0, normal := some 0 }

def c2dex : Stat :=
  { mkStat "dex" (.div (.sub (.sref .cur "dexterity") (.lit 10)) (.lit 2)) with
      char := true, uses := ["dexterity"], root := false, value := some 0, normal := some 0 }

def csC2 : Character :=
  { stats := [("dexterity", c2dexterity), ("dex", c2dex)]
    bonuses := []
    effects := []
    bonusTypes := []
    bonusPerm := []
    stacksList := [] }

/-- An `hp` stat and a permanent-category bonus `gift` that was CONSTRUCTED
inactive (`active=False` at the constructor). -/
def c7ch0 : Character :=
  { stats := [("hp", mkStat "hp" (.lit 10))]
    bonuses := [("gift", mkBonus "gift" 2 ["hp"] (some "perm") none false)]
    effects := []
    bonusTypes := []
    bonusPerm := ["perm"]
    stacksList := [] }

/-- After plugging `hp`. -/
def c7ch1 : Character := (plugFuel 2 c7ch0 "hp").1

/-- After plugging the bonus: `plug` forced `active` to true. -/
def c7ch2 : Character := (bonusPlug 2 c7ch1 "gift").1

/-- Whether a resolved reference with this sigil and name occurs in the
expression. -/
def occursRef (sig : Sigil) (k : String) : Expr → Bool
  | .sref s m => s == sig && m == k
  | .add a b => occursRef sig k a || occursRef sig k b
  | .sub a b => occursRef sig k a || occursRef sig k b
  | .mul a b => occursRef sig k a || occursRef sig k b
  | .div a b => occursRef sig k a || occursRef sig k b
  | .neg a => occursRef sig k a
  | _ => false

/-- Invariant of the alias-resolution loop: `uses` and the recorded
referenced-stat set evolve identically from empty; the recorded set has no
duplicates, holds only known stat names, every recorded name occurs as a
resolved reference of the formula, and every read of the formula is either
an original read or a recorded name. -/
def resolveGood (e0 : Expr) (K : List String) (e : Expr) (us ub : List String) : Prop :=
  us = ub ∧ ub.Nodup ∧ (∀ k ∈ ub, k ∈ K) ∧
  (∀ k ∈ ub, occursRef .cur k e = true ∨ occursRef .nrm k e = true) ∧
  (∀ k ∈ readsE e, k ∈ readsE e0 ∨ k ∈ ub)

/-- The alias-resolution fold over a list of stat names. -/
def resolveAll (keys : List String) (acc : Expr × List String × Bool × List String) :
    Expr × List String × Bool × List String :=
  keys.foldl (fun a m => resolveName m a) acc

end CharSheet

set_option maxHeartbeats 1000000

namespace CharSheet

/-- C4 (counterexample): in the scenario context, plugging the stat `dex`
with formula `($dexterity-10)/2` succeeds but yields value `7/2 = 3.5`, not
`3`: Python 3's `/` is true division and does not round down, so the claim's
asserted value `3` is wrong at this input. -/
theorem c4_division_counterexample :
    (plugFuel 2 c4ch1 "dex").2 = none ∧
    (lookupStat c4ch2 "dex").map (fun st => st.value) = some (some ((7 : Rat) / 2)) ∧
    (some (some ((7 : Rat) / 2)) : Option (Option Rat)) ≠ some (some (3 : Rat)) := by
  exact ⟨by with_unfolding_all rfl, by with_unfolding_all rfl, by with_unfolding_all decide⟩

/-- C4 (amended): in a context containing a root stat named `dexterity` with
formula `17` (value 17), a stat with formula `($dexterity-10)/2`, once
plugged and recomputed, has value `3.5`: the `/` in the formula is Python 3
true division and does not round down (obtaining 3 would require `int(...)`
or `//`).  `dexterity` itself computes to 17 as claimed. -/
theorem c4_division_amended :
    (lookupStat c4ch1 "dexterity").map (fun st => st.value) = some (some (17 : Rat)) ∧
    (plugFuel 2 c4ch1 "dex").2 = none ∧
    (lookupStat c4ch2 "dex").map (fun st => st.value) = some (some ((7 : Rat) / 2)) := by
  exact ⟨by with_unfolding_all rfl, by with_unfolding_all rfl, by with_unfolding_all rfl⟩

/-- C6: on the scenario context (`dex` depends on `dexterity`), a plain
`unplug()` of `dexterity` raises DependencyError naming `dex` and changes
nothing - that half of the claim holds.  But `unplug(recursive=True)` does
not detach `dexterity`: iterating `self.usedby` while each dependant's
`unplug` removes itself from that very set trips CPython's size-change check,
so after `dex` is detached the loop raises RuntimeError and `dexterity` is
left attached (`char` still set), contradicting the claim. -/
theorem c6_unplug_recursive_crash :
    unplugFuel 1 c4ch2 "dexterity" false false
      = (c4ch2, some (.dependencyError ["dex"])) ∧
    (unplugFuel 2 c4ch2 "dexterity" false true).2 = some .setChangedError ∧
    (lookupStat (unplugFuel 2 c4ch2 "dexterity" false true).1 "dexterity").map
      (fun st => st.char) = some true ∧
    (lookupStat (unplugFuel 2 c4ch2 "dexterity" false true).1 "dex").map
      (fun st => st.char) = some false := by
  exact ⟨by with_unfolding_all rfl, by with_unfolding_all rfl, by with_unfolding_all rfl, by with_unfolding_all rfl⟩

/-- C8: `Bonus.off()` without force crashes whenever `usedby` is non-empty.
Here the only referencing effect is NOT active (`is_active()` is false), so
the claim requires `off()` to set `active` to false and recompute; instead
the code's reduce applies `is_active()` to the effect NAME (a string that
`Effect.plug` added to `usedby`) and raises AttributeError, leaving the
bonus active.  (With empty `usedby`, as before the effect was plugged,
`off()` does deactivate the bonus - the crash is specific to the
Effect-shared case the claim describes.) -/
theorem c8_off_effect_shared_crash :
    (lookupBonus c8ch3 "mage_armor").map (fun b => b.usedby) = some ["spell"] ∧
    (lookupEffect c8ch3 "spell").map effectIsActive = some false ∧
    bonusOff 2 c8ch3 "mage_armor" false = (c8ch3, some .attributeError) ∧
    (lookupBonus c8ch3 "mage_armor").map (fun b => b.active) = some true ∧
    (lookupBonus (bonusOff 2 c8ch2 "mage_armor" false).1 "mage_armor").map
      (fun b => b.active) = some false := by
  exact ⟨by with_unfolding_all rfl, by with_unfolding_all rfl, by with_unfolding_all rfl, by with_unfolding_all rfl, by with_unfolding_all rfl⟩

/-- C10: `Effect.unplug()` on a plugged effect with a referenced bonus does
not reverse the registration: its loop body reads the unbound global name
`char` (instead of `self.char`), so the call raises NameError leaving the
effect's name still in the bonus's `usedby`, the bonus untouched, and the
character binding still set. -/
theorem c10_effect_unplug_nameerror :
    (lookupEffect c8ch3 "spell").map (fun e => e.char) = some true ∧
    effectUnplug c8ch3 "spell" = (c8ch3, some .nameError) ∧
    (lookupBonus c8ch3 "mage_armor").map (fun b => b.usedby) = some ["spell"] := by
  exact ⟨by with_unfolding_all rfl, by with_unfolding_all rfl, by with_unfolding_all rfl⟩

/-- C9: `Duration.parse("1d")` is 14400 rounds, `parse("2hr")` is 1200,
absent text is the `-1` sentinel, `parse("1/2CL")` with a caster-level stat
valued 6 is `max(1, floor(6/2)) = 3`, and `advance()` on a sentinel duration
leaves rounds at `-1` and returns false. -/
theorem c9_duration_parse_advance :
    durationParse (some "1d") none = .ok 14400 ∧
    durationParse (some "2hr") none = .ok 1200 ∧
    durationParse none none = .ok (-1) ∧
    durationParse (some "1/2CL") (some chCL6) = .ok 3 ∧
    durationAdvance { rounds := -1, original := -1 } 1
      = ({ rounds := -1, original := -1 }, false) := by
  exact ⟨by with_unfolding_all rfl, by with_unfolding_all rfl, by with_unfolding_all rfl, by with_unfolding_all rfl, by with_unfolding_all rfl⟩

/-! ## Registry lemmas -/

theorem find?_replace_ne {β : Type} (l : List (String × β)) (n m : String) (b : β)
    (h : m ≠ n) :
    (l.map (fun p => if p.1 == n then (p.1, b) else p)).find? (fun p => p.1 == m)
      = l.find? (fun p => p.1 == m) := by
  induction l with
  | nil => rfl
  | cons p l ih =>
    simp only [List.map_cons]
    by_cases hpn : p.1 = n
    · have h1 : (p.1 == n) = true := beq_iff_eq.mpr hpn
      have h2 : (p.1 == m) = false :=
        beq_eq_false_iff_ne.mpr (fun hh => h (hh.symm.trans hpn))
      rw [if_pos h1]
      simp only [List.find?_cons, h2]
      exact ih
    · have h1 : (p.1 == n) = false := beq_eq_false_iff_ne.mpr hpn
      rw [if_neg (by simp [hpn])]
      by_cases hpm : p.1 = m
      · have h2 : (p.1 == m) = true := beq_iff_eq.mpr hpm
        simp only [List.find?_cons, h2]
      · have h2 : (p.1 == m) = false := beq_eq_false_iff_ne.mpr hpm
        simp only [List.find?_cons, h2]
        exact ih

theorem find?_replace_self {β : Type} (l : List (String × β)) (n : String) (b : β) :
    (l.map (fun p => if p.1 == n then (p.1, b) else p)).find? (fun p => p.1 == n)
      = (l.find? (fun p => p.1 == n)).map (fun p => (p.1, b)) := by
  induction l with
  | nil => rfl
  | cons p l ih =>
    simp only [List.map_cons]
    by_cases hpn : p.1 = n
    · have h1 : (p.1 == n) = true := beq_iff_eq.mpr hpn
      rw [if_pos h1]
      simp only [List.find?_cons, h1]
      rfl
    · have h1 : (p.1 == n) = false := beq_eq_false_iff_ne.mpr hpn
      rw [if_neg (by simp [hpn])]
      simp only [List.find?_cons, h1]
      exact ih

theorem lookupStat_setStat_ne (ch : Character) (n m : String) (st : Stat) (h : m ≠ n) :
    lookupStat (setStat ch n st) m = lookupStat ch m := by
  simp only [lookupStat, setStat, find?_replace_ne ch.stats n m st h]

theorem lookupStat_setStat_self (ch : Character) (n : String) (st : Stat) :
    lookupStat (setStat ch n st) n = (lookupStat ch n).map (fun _ => st) := by
  simp only [lookupStat, setStat, find?_replace_self ch.stats n st, Option.map_map]
  rfl

theorem lookupBonus_setBonus_ne (ch : Character) (n m : String) (b : Bonus) (h : m ≠ n) :
    lookupBonus (setBonus ch n b) m = lookupBonus ch m := by
  simp only [lookupBonus, setBonus, find?_replace_ne ch.bonuses n m b h]

theorem lookupBonus_setBonus_self (ch : Character) (n : String) (b : Bonus) :
    lookupBonus (setBonus ch n b) n = (lookupBonus ch n).map (fun _ => b) := by
  simp only [lookupBonus, setBonus, find?_replace_self ch.bonuses n b, Option.map_map]
  rfl

@[simp] theorem setStat_bonuses (ch : Character) (n : String) (st : Stat) :
    (setStat ch n st).bonuses = ch.bonuses := rfl

@[simp] theorem setStat_effects (ch : Character) (n : String) (st : Stat) :
    (setStat ch n st).effects = ch.effects := rfl

@[simp] theorem setStat_bonusTypes (ch : Character) (n : String) (st : Stat) :
    (setStat ch n st).bonusTypes = ch.bonusTypes := rfl

@[simp] theorem setStat_bonusPerm (ch : Character) (n : String) (st : Stat) :
    (setStat ch n st).bonusPerm = ch.bonusPerm := rfl

@[simp] theorem setStat_stacksList (ch : Character) (n : String) (st : Stat) :
    (setStat ch n st).stacksList = ch.stacksList := rfl

@[simp] theorem setStat_keys (ch : Character) (n : String) (st : Stat) :
    (setStat ch n st).stats.map Prod.fst = ch.stats.map Prod.fst := by
  simp only [setStat, List.map_map]
  apply List.map_congr_left
  intro p _
  by_cases hp : p.1 = n <;> simp [hp]

@[simp] theorem lookupBonus_setStat (ch : Character) (n m : String) (st : Stat) :
    lookupBonus (setStat ch n st) m = lookupBonus ch m := rfl

@[simp] theorem lookupStat_setBonus (ch : Character) (n m : String) (b : Bonus) :
    lookupStat (setBonus ch n b) m = lookupStat ch m := rfl

theorem setStat_setStat (ch : Character) (n : String) (a b : Stat) :
    setStat (setStat ch n a) n b = setStat ch n b := by
  simp only [setStat, List.map_map]
  congr 1
  apply List.map_congr_left
  intro p _
  by_cases hp : p.1 = n <;> simp [hp]

/-! ## Recompute-propagation lemmas: `calc` writes only `value`/`normal`,
and only on stats reachable through `usedby` edges. -/

theorem statsSkelEq_refl (ch : Character) : statsSkelEq ch ch :=
  ⟨rfl, rfl, rfl, rfl, rfl, rfl, fun _ => rfl⟩

theorem statsSkelEq_trans {a b c : Character}
    (h1 : statsSkelEq a b) (h2 : statsSkelEq b c) : statsSkelEq a c := by
  obtain ⟨x1, x2, x3, x4, x5, x6, x7⟩ := h1
  obtain ⟨y1, y2, y3, y4, y5, y6, y7⟩ := h2
  exact ⟨y1.trans x1, y2.trans x2, y3.trans x3, y4.trans x4, y5.trans x5,
    y6.trans x6, fun m => (y7 m).trans (x7 m)⟩

theorem statsSkelEq_setStat (ch : Character) (n : String) (st st1 : Stat)
    (h : lookupStat ch n = some st) (hsk : st1.skel = st.skel) :
    statsSkelEq ch (setStat ch n st1) := by
  refine ⟨rfl, rfl, rfl, rfl, rfl, setStat_keys ch n st1, fun m => ?_⟩
  by_cases hm : m = n
  · subst hm
    rw [lookupStat_setStat_self, h]
    simp [hsk]
  · rw [lookupStat_setStat_ne ch n m st1 hm]

theorem statsSkelEq_usedbyOf {ch0 ch1 : Character} (h : statsSkelEq ch0 ch1) :
    ∀ m, usedbyOf ch1 m = usedbyOf ch0 m := by
  intro m
  have hm := h.2.2.2.2.2.2 m
  unfold usedbyOf
  cases h1 : lookupStat ch0 m with
  | none =>
    cases h2 : lookupStat ch1 m with
    | none => rfl
    | some st' => rw [h1, h2] at hm; simp at hm
  | some st =>
    cases h2 : lookupStat ch1 m with
    | none => rw [h1, h2] at hm; simp at hm
    | some st' =>
      rw [h1, h2] at hm
      simp only [Option.map_some'] at hm
      exact congrArg StatSkel.usedby (Option.some.inj hm)

theorem reachUpTo_congr {ch0 ch1 : Character}
    (h : ∀ m, usedbyOf ch1 m = usedbyOf ch0 m) :
    ∀ f, reachUpTo f ch1 = reachUpTo f ch0 := by
  intro f
  induction f with
  | zero => rfl
  | succ f ih =>
    funext n
    simp only [reachUpTo, h n, ih]

theorem runList_skel (step : Character → String → Character × Option PyErr)
    (hstep : ∀ c m, statsSkelEq c ((step c m).1)) :
    ∀ (l : List String) (ch : Character), statsSkelEq ch ((runList step ch l).1) := by
  intro l
  induction l with
  | nil => intro ch; exact statsSkelEq_refl ch
  | cons d rest ih =>
    intro ch
    simp only [runList]
    cases hres : step ch d with
    | mk c1 o =>
      have h1 : statsSkelEq ch c1 := by
        have := hstep ch d
        rw [hres] at this
        exact this
      cases o with
      | none => exact statsSkelEq_trans h1 (ih c1)
      | some e => exact h1

theorem calcFuel_skel : ∀ (f : Nat) (ch : Character) (n : String),
    statsSkelEq ch ((calcFuel f ch n).1) := by
  intro f
  induction f with
  | zero => intro ch n; exact statsSkelEq_refl ch
  | succ f ih =>
    intro ch n
    show statsSkelEq ch ((calcStep (calcFuel f) ch n).1)
    unfold calcStep
    cases hl : lookupStat ch n with
    | none => exact statsSkelEq_refl ch
    | some st =>
      dsimp only
      by_cases hc : (!st.char) = true
      · rw [if_pos hc]
        exact statsSkelEq_refl ch
      · rw [if_neg hc]
        split
        · exact statsSkelEq_refl ch
        next nm h1 =>
          have hsk1 : statsSkelEq ch (setStat ch n { st with normal := some nm }) :=
            statsSkelEq_setStat ch n st { st with normal := some nm } hl rfl
          split
          · exact hsk1
          next base h2 =>
            have hlk1 : lookupStat (setStat ch n { st with normal := some nm }) n
                = some { st with normal := some nm } := by
              rw [lookupStat_setStat_self, hl]; rfl
            have hsk2 : statsSkelEq ch
                (setStat (setStat ch n { st with normal := some nm }) n
                  { st with normal := some nm, value := some (applyBonuses (setStat ch n { st with normal := some nm }) st.bonuses base) }) :=
              statsSkelEq_trans hsk1 (statsSkelEq_setStat _ n { st with normal := some nm }
                { st with normal := some nm, value := some (applyBonuses (setStat ch n { st with normal := some nm }) st.bonuses base) } hlk1 rfl)
            split
            · exact statsSkelEq_trans hsk2 (runList_skel (calcFuel f) (fun c m => ih c m) _ _)
            · exact hsk2

theorem runList_frame (f : Nat) (m : String)
    (hrec : ∀ (ch : Character) (n : String), m ∉ reachUpTo f ch n →
      lookupStat ((calcFuel f ch n).1) m = lookupStat ch m) :
    ∀ (l : List String) (ch0 ch : Character),
      statsSkelEq ch0 ch →
      (∀ d ∈ l, m ∉ reachUpTo f ch0 d) →
      lookupStat ((runList (calcFuel f) ch l).1) m = lookupStat ch m := by
  intro l
  induction l with
  | nil => intro ch0 ch _ _; rfl
  | cons d rest ih =>
    intro ch0 ch hsk hm
    simp only [runList]
    have hreach : reachUpTo f ch = reachUpTo f ch0 :=
      reachUpTo_congr (statsSkelEq_usedbyOf hsk) f
    have hmd : m ∉ reachUpTo f ch d := by
      rw [hreach]
      exact hm d (List.mem_cons_self d rest)
    cases hres : calcFuel f ch d with
    | mk c1 o =>
      have hfr : lookupStat c1 m = lookupStat ch m := by
        have := hrec ch d hmd
        rw [hres] at this
        exact this
      have hsk1 : statsSkelEq ch0 c1 := by
        refine statsSkelEq_trans hsk ?_
        have := calcFuel_skel f ch d
        rw [hres] at this
        exact this
      cases o with
      | none =>
        have := ih ch0 c1 hsk1 (fun x hx => hm x (List.mem_cons_of_mem d hx))
        exact this.trans hfr
      | some e => exact hfr

theorem calc_frame : ∀ (f : Nat) (ch : Character) (n m : String),
    m ∉ reachUpTo f ch n →
    lookupStat ((calcFuel f ch n).1) m = lookupStat ch m := by
  intro f
  induction f with
  | zero => intro ch n m _; rfl
  | succ f ih =>
    intro ch n m hm
    have hmn : m ≠ n := by
      intro h
      exact hm (by simp [reachUpTo, h])
    show lookupStat ((calcStep (calcFuel f) ch n).1) m = lookupStat ch m
    unfold calcStep
    cases hl : lookupStat ch n with
    | none => rfl
    | some st =>
      dsimp only
      by_cases hc : (!st.char) = true
      · rw [if_pos hc]
      · rw [if_neg hc]
        split
        · rfl
        next nm h1 =>
          have hne1 : lookupStat (setStat ch n { st with normal := some nm }) m
              = lookupStat ch m := lookupStat_setStat_ne ch n m _ hmn
          split
          · exact hne1
          next base h2 =>
            have hlk1 : lookupStat (setStat ch n { st with normal := some nm }) n
                = some { st with normal := some nm } := by
              rw [lookupStat_setStat_self, hl]; rfl
            have hne2 : lookupStat (setStat (setStat ch n { st with normal := some nm }) n
                { st with normal := some nm, value := some (applyBonuses (setStat ch n { st with normal := some nm }) st.bonuses base) }) m = lookupStat ch m := by
              rw [lookupStat_setStat_ne _ n m _ hmn]
              exact hne1
            have hsk2 : statsSkelEq ch
                (setStat (setStat ch n { st with normal := some nm }) n
                  { st with normal := some nm, value := some (applyBonuses (setStat ch n { st with normal := some nm }) st.bonuses base) }) :=
              statsSkelEq_trans (statsSkelEq_setStat ch n st { st with normal := some nm } hl rfl)
                (statsSkelEq_setStat _ n { st with normal := some nm }
                  { st with normal := some nm, value := some (applyBonuses (setStat ch n { st with normal := some nm }) st.bonuses base) } hlk1 rfl)
            have hd : ∀ d ∈ st.usedby, m ∉ reachUpTo f ch d := by
              intro d hdmem hmem
              apply hm
              simp only [reachUpTo, usedbyOf, hl, List.mem_cons]
              right
              exact List.mem_flatMap.mpr ⟨d, hdmem, hmem⟩
            split
            · exact (runList_frame f m (fun c k => ih c k m) st.usedby ch _ hsk2 hd).trans hne2
            · exact hne2

/-! ## Evaluation lemmas -/

theorem readsE_toNormal : ∀ e : Expr, readsE (toNormal e) = readsE e := by
  intro e
  induction e with
  | lit i => rfl
  | ali s k => rfl
  | sref s k => cases s <;> rfl
  | add a b iha ihb => simp [toNormal, readsE, iha, ihb]
  | sub a b iha ihb => simp [toNormal, readsE, iha, ihb]
  | mul a b iha ihb => simp [toNormal, readsE, iha, ihb]
  | div a b iha ihb => simp [toNormal, readsE, iha, ihb]
  | neg a iha => simp [toNormal, readsE, iha]

/-- `evalE` reads only the `value`/`normal` fields of the stats named in the
expression: contexts agreeing there evaluate identically. -/
theorem evalE_congr (ch ch' : Character) :
    ∀ e : Expr,
      (∀ k ∈ readsE e, (lookupStat ch' k).map vnOf = (lookupStat ch k).map vnOf) →
      evalE ch' e = evalE ch e := by
  intro e
  induction e with
  | lit i => intro _; rfl
  | ali s k => intro _; rfl
  | sref s k =>
    intro h
    have hk := h k (by simp [readsE])
    simp only [evalE]
    cases h1 : lookupStat ch k with
    | none =>
      cases h2 : lookupStat ch' k with
      | none => rfl
      | some st' => rw [h1, h2] at hk; simp at hk
    | some st =>
      cases h2 : lookupStat ch' k with
      | none => rw [h1, h2] at hk; simp at hk
      | some st' =>
        rw [h1, h2] at hk
        simp only [Option.map_some'] at hk
        have hv : st'.value = st.value := congrArg Prod.fst (Option.some.inj hk)
        have hn : st'.normal = st.normal := congrArg Prod.snd (Option.some.inj hk)
        cases s <;> simp [sigilField, hv, hn]
  | add a b iha ihb =>
    intro h
    have ha := iha (fun k hk => h k (by simp only [readsE, List.mem_append]; exact Or.inl hk))
    have hb := ihb (fun k hk => h k (by simp only [readsE, List.mem_append]; exact Or.inr hk))
    simp only [evalE, ha, hb]
  | sub a b iha ihb =>
    intro h
    have ha := iha (fun k hk => h k (by simp only [readsE, List.mem_append]; exact Or.inl hk))
    have hb := ihb (fun k hk => h k (by simp only [readsE, List.mem_append]; exact Or.inr hk))
    simp only [evalE, ha, hb]
  | mul a b iha ihb =>
    intro h
    have ha := iha (fun k hk => h k (by simp only [readsE, List.mem_append]; exact Or.inl hk))
    have hb := ihb (fun k hk => h k (by simp only [readsE, List.mem_append]; exact Or.inr hk))
    simp only [evalE, ha, hb]
  | div a b iha ihb =>
    intro h
    have ha := iha (fun k hk => h k (by simp only [readsE, List.mem_append]; exact Or.inl hk))
    have hb := ihb (fun k hk => h k (by simp only [readsE, List.mem_append]; exact Or.inr hk))
    simp only [evalE, ha, hb]
  | neg a iha =>
    intro h
    have ha := iha (fun k hk => h k (by simpa [readsE] using hk))
    simp only [evalE, ha]

theorem evalE_ne_formulaError (ch : Character) :
    ∀ (e : Expr) (inner : PyErr), evalE ch e ≠ .error (.formulaError inner) := by
  intro e
  induction e with
  | lit i => intro inner h; simp [evalE] at h
  | ali s k => intro inner h; simp [evalE] at h
  | sref s k =>
    intro inner h
    simp only [evalE] at h
    cases h1 : lookupStat ch k with
    | none => rw [h1] at h; simp at h
    | some st =>
      rw [h1] at h
      dsimp only at h
      cases h2 : sigilField s st with
      | none => rw [h2] at h; simp at h
      | some v => rw [h2] at h; simp at h
  | add a b iha ihb =>
    intro inner h
    simp only [evalE, bind, Except.bind] at h
    cases ha : evalE ch a with
    | error e1 =>
      rw [ha] at h
      simp only at h
      rw [Except.error.injEq] at h
      exact iha inner (by rw [ha, h])
    | ok x =>
      rw [ha] at h
      simp only at h
      cases hb : evalE ch b with
      | error e2 =>
        rw [hb] at h
        simp only at h
        rw [Except.error.injEq] at h
        exact ihb inner (by rw [hb, h])
      | ok y => rw [hb] at h; simp [pure, Except.pure] at h
  | sub a b iha ihb =>
    intro inner h
    simp only [evalE, bind, Except.bind] at h
    cases ha : evalE ch a with
    | error e1 =>
      rw [ha] at h
      simp only at h
      rw [Except.error.injEq] at h
      exact iha inner (by rw [ha, h])
    | ok x =>
      rw [ha] at h
      simp only at h
      cases hb : evalE ch b with
      | error e2 =>
        rw [hb] at h
        simp only at h
        rw [Except.error.injEq] at h
        exact ihb inner (by rw [hb, h])
      | ok y => rw [hb] at h; simp [pure, Except.pure] at h
  | mul a b iha ihb =>
    intro inner h
    simp only [evalE, bind, Except.bind] at h
    cases ha : evalE ch a with
    | error e1 =>
      rw [ha] at h
      simp only at h
      rw [Except.error.injEq] at h
      exact iha inner (by rw [ha, h])
    | ok x =>
      rw [ha] at h
      simp only at h
      cases hb : evalE ch b with
      | error e2 =>
        rw [hb] at h
        simp only at h
        rw [Except.error.injEq] at h
        exact ihb inner (by rw [hb, h])
      | ok y => rw [hb] at h; simp [pure, Except.pure] at h
  | div a b iha ihb =>
    intro inner h
    simp only [evalE, bind, Except.bind] at h
    cases ha : evalE ch a with
    | error e1 =>
      rw [ha] at h
      simp only at h
      rw [Except.error.injEq] at h
      exact iha inner (by rw [ha, h])
    | ok x =>
      rw [ha] at h
      simp only at h
      cases hb : evalE ch b with
      | error e2 =>
        rw [hb] at h
        simp only at h
        rw [Except.error.injEq] at h
        exact ihb inner (by rw [hb, h])
      | ok y =>
        rw [hb] at h
        simp only at h
        by_cases hz : (y == 0) = true
        · rw [if_pos hz] at h; simp at h
        · rw [if_neg hz] at h; simp [pure, Except.pure] at h
  | neg a iha =>
    intro inner h
    simp only [evalE, bind, Except.bind] at h
    cases ha : evalE ch a with
    | error e1 =>
      rw [ha] at h
      simp only at h
      rw [Except.error.injEq] at h
      exact iha inner (by rw [ha, h])
    | ok x => rw [ha] at h; simp [pure, Except.pure] at h

theorem runList_ne_formulaError (step : Character → String → Character × Option PyErr)
    (hstep : ∀ c k inner, (step c k).2 ≠ some (.formulaError inner)) :
    ∀ (l : List String) (ch : Character) (inner : PyErr),
      (runList step ch l).2 ≠ some (.formulaError inner) := by
  intro l
  induction l with
  | nil => intro ch inner h; simp [runList] at h
  | cons d rest ih =>
    intro ch inner h
    simp only [runList] at h
    cases hres : step ch d with
    | mk c1 o =>
      rw [hres] at h
      cases o with
      | none => exact ih c1 inner h
      | some e =>
        apply hstep ch d inner
        rw [hres]
        simpa using h

theorem calcFuel_ne_formulaError : ∀ (f : Nat) (ch : Character) (n : String) (inner : PyErr),
    (calcFuel f ch n).2 ≠ some (.formulaError inner) := by
  intro f
  induction f with
  | zero => intro ch n inner h; simp [calcFuel] at h
  | succ f ih =>
    intro ch n inner h
    have h' : (calcStep (calcFuel f) ch n).2 = some (.formulaError inner) := h
    unfold calcStep at h'
    split at h'
    · simp at h'
    · dsimp only at h'
      split at h'
      · simp at h'
      · split at h'
        next e heq =>
          simp only at h'
          rw [Option.some.injEq] at h'
          exact evalE_ne_formulaError ch _ inner (by rw [heq, h'])
        next nm heq =>
          split at h'
          next e heq2 =>
            simp only at h'
            rw [Option.some.injEq] at h'
            exact evalE_ne_formulaError _ _ inner (by rw [heq2, h'])
          next base heq2 =>
            split at h'
            · exact runList_ne_formulaError (calcFuel f) (fun c k i => ih c k i) _ _ inner h'
            · simp at h'

/-! ## The bonus fold computes base plus the per-category contributions -/

theorem applyBonuses_cons (ch : Character) (p : String × List String)
    (l : List (String × List String)) (base : Rat) :
    applyBonuses ch (p :: l) base
      = applyBonuses ch l (base + (categoryContribution ch p.1 p.2 : Rat)) := by
  simp only [applyBonuses, List.foldl_cons, categoryContribution]
  congr 1
  by_cases h1 : (activeValues ch p.2).isEmpty
  · simp [h1]
  · by_cases h2 : ch.stacksP p.1 <;> simp [h1, h2]

theorem applyBonuses_eq_total (ch : Character) :
    ∀ (bl : List (String × List String)) (base : Rat),
      applyBonuses ch bl base = base + (totalContribution ch bl : Rat) := by
  intro bl
  induction bl with
  | nil => intro base; simp [applyBonuses, totalContribution]
  | cons p l ih =>
    intro base
    rw [applyBonuses_cons, ih]
    simp only [totalContribution, List.map_cons, List.sum_cons]
    push_cast
    ring

/-- What one successful `calc` invocation writes at its own stat: the normal
evaluation, and the with-bonuses evaluation folded with bonuses - provided
the stat does not read itself and no dependant's propagation reaches back
to it. -/
theorem calc_writes (f : Nat) (ch : Character) (n : String) (st : Stat) (nm b : Rat)
    (hst : lookupStat ch n = some st) (hchar : st.char = true)
    (hself : n ∉ readsE st.formula)
    (hnm : evalE ch (toNormal st.formula) = .ok nm)
    (hb : evalE ch st.formula = .ok b)
    (hacyc : ∀ d ∈ st.usedby, n ∉ reachUpTo f ch d) :
    lookupStat ((calcFuel (f + 1) ch n).1) n
      = some { st with normal := some nm, value := some (applyBonuses ch st.bonuses b) } := by
  have hb2 : evalE (setStat ch n { st with normal := some nm }) st.formula = .ok b := by
    rw [evalE_congr ch (setStat ch n { st with normal := some nm }) st.formula
      (fun k hk => by rw [lookupStat_setStat_ne ch n k _ (fun hkn => hself (hkn ▸ hk))])]
    exact hb
  have happ : applyBonuses (setStat ch n { st with normal := some nm }) st.bonuses b
      = applyBonuses ch st.bonuses b := rfl
  have hlk1 : lookupStat (setStat ch n { st with normal := some nm }) n
      = some { st with normal := some nm } := by
    rw [lookupStat_setStat_self, hst]; rfl
  have hlk2 : lookupStat (setStat (setStat ch n { st with normal := some nm }) n
      { st with normal := some nm, value := some (applyBonuses ch st.bonuses b) }) n
      = some { st with normal := some nm, value := some (applyBonuses ch st.bonuses b) } := by
    rw [lookupStat_setStat_self, hlk1]; rfl
  show lookupStat ((calcStep (calcFuel f) ch n).1) n = _
  unfold calcStep
  rw [hst]
  dsimp only
  rw [if_neg (by simp [hchar])]
  rw [hnm]
  dsimp only
  rw [hb2]
  dsimp only
  rw [happ]
  split
  · -- outputs changed: the propagation wave does not come back to `n`
    have hsk2 : statsSkelEq ch
        (setStat (setStat ch n { st with normal := some nm }) n
          { st with normal := some nm, value := some (applyBonuses ch st.bonuses b) }) :=
      statsSkelEq_trans
        (statsSkelEq_setStat ch n st { st with normal := some nm } hst rfl)
        (statsSkelEq_setStat _ n { st with normal := some nm }
          { st with normal := some nm, value := some (applyBonuses ch st.bonuses b) } hlk1 rfl)
    exact (runList_frame f n (fun c k => calc_frame f c k n) st.usedby ch _ hsk2 hacyc).trans hlk2
  · exact hlk2

theorem map_replace_id (l : List (String × Stat)) (n : String) (st : Stat)
    (h : n ∉ l.map Prod.fst) :
    l.map (fun p => if p.1 == n then (p.1, st) else p) = l := by
  induction l with
  | nil => rfl
  | cons p l ih =>
    simp only [List.map_cons, List.mem_cons, not_or] at h
    have hp : (p.1 == n) = false := beq_eq_false_iff_ne.mpr (fun hh => h.1 hh.symm)
    simp only [List.map_cons, hp, Bool.false_eq_true, if_false, List.cons.injEq, true_and]
    exact ih h.2

theorem find?_map_self_eq (l : List (String × Stat)) (n : String) (st : Stat)
    (hkeys : (l.map Prod.fst).Nodup)
    (h : (l.find? (fun p => p.1 == n)).map (fun p => p.2) = some st) :
    l.map (fun p => if p.1 == n then (p.1, st) else p) = l := by
  induction l with
  | nil => simp at h
  | cons p l ih =>
    simp only [List.map_cons, List.nodup_cons] at hkeys
    by_cases hp : p.1 = n
    · have hp1 : (p.1 == n) = true := beq_iff_eq.mpr hp
      simp only [List.find?_cons, hp1, Option.map_some'] at h
      have hst : st = p.2 := (Option.some.inj h).symm
      simp only [List.map_cons, hp1, if_true, List.cons.injEq]
      refine ⟨by rw [hst], ?_⟩
      apply map_replace_id
      rw [← hp]
      exact hkeys.1
    · have hp1 : (p.1 == n) = false := beq_eq_false_iff_ne.mpr hp
      simp only [List.find?_cons, hp1] at h
      simp only [List.map_cons, hp1, Bool.false_eq_true, if_false, List.cons.injEq, true_and]
      exact ih hkeys.2 h

/-- Writing back the record a stat already holds is a no-op (unique keys). -/
theorem setStat_eq_self (ch : Character) (n : String) (st : Stat)
    (hkeys : (ch.stats.map Prod.fst).Nodup) (h : lookupStat ch n = some st) :
    setStat ch n st = ch := by
  unfold setStat
  have hl : ch.stats.map (fun p => if p.1 == n then (p.1, st) else p) = ch.stats :=
    find?_map_self_eq ch.stats n st hkeys h
  rw [hl]

/-- C3 (counterexample): plugging `b` (formula `$a+$zzz`) fails with a
FormulaError because `$zzz` resolves to no stat - but the claim's asserted
atomicity is violated: before the call `b` had `char` unbound, `uses` empty
and `root` true; after the failed call `b.char` is bound, `b.uses` contains
`a` and `b.root` is false, because `Stat.plug` mutates those fields during
the alias scan before the `eval` test runs. -/
theorem c3_plug_partial_state_counterexample :
    (lookupStat c3ch1 "b").map (fun st => (st.char, st.uses, st.root))
      = some (false, [], true) ∧
    (plugFuel 2 c3ch1 "b").2 = some (.formulaError .syntaxError) ∧
    (lookupStat (plugFuel 2 c3ch1 "b").1 "b").map (fun st => (st.char, st.uses, st.root))
      = some (true, ["a"], false) := by
  exact ⟨by with_unfolding_all rfl, by with_unfolding_all rfl, by with_unfolding_all rfl⟩

/-- C1: for every plugged stat, `calc()` folds bonuses in by category: its
final value is the pre-bonus formula evaluation `b` plus the sum over the
categories present on the stat of that category's contribution, where a
category contributes the sum of `get_value()` over its active bonuses when
the context's stacking policy says it stacks, the maximum single active
`get_value()` otherwise, and nothing when it has no active bonus
(`categoryContribution`/`totalContribution` are that spec-side description;
inactive bonuses are filtered out of `activeValues`).  The hypotheses ask
that the stat not read itself and that no dependant's propagation wave reach
back to it - consequences of the acyclic graphs the engine supports. -/
theorem c1_calc_bonus_fold (f : Nat) (ch : Character) (n : String) (st : Stat) (nm b : Rat)
    (hst : lookupStat ch n = some st) (hchar : st.char = true)
    (hself : n ∉ readsE st.formula)
    (hnm : evalE ch (toNormal st.formula) = .ok nm)
    (hb : evalE ch st.formula = .ok b)
    (hacyc : ∀ d ∈ st.usedby, n ∉ reachUpTo f ch d) :
    (lookupStat ((calcFuel (f + 1) ch n).1) n).map (fun x => x.value)
      = some (some (b + (totalContribution ch st.bonuses : Rat))) := by
  rw [calc_writes f ch n st nm b hst hchar hself hnm hb hacyc]
  simp only [Option.map_some']
  rw [applyBonuses_eq_total]

/-- C1 witness: on the concrete context, the stacking category [2,3,5]
contributes 10, the non-stacking one contributes 5, the inactive bonus
contributes nothing, and `calc` produces `10 + 15 = 25`. -/
theorem c1_calc_bonus_fold_witness :
    categoryContribution c1ch "dodge" ["d1", "d2", "d3", "d0"] = 10 ∧
    categoryContribution c1ch "armor" ["a1", "a2", "a3"] = 5 ∧
    (lookupStat ((calcFuel 1 c1ch "ac").1) "ac").map (fun x => x.value)
      = some (some ((10 : Rat) + (totalContribution c1ch c1ac.bonuses : Rat))) ∧
    (10 : Rat) + (totalContribution c1ch c1ac.bonuses : Rat) = 25 :=
  ⟨by with_unfolding_all decide, by with_unfolding_all decide,
   c1_calc_bonus_fold 0 c1ch "ac" c1ac 10 10 (by with_unfolding_all rfl) rfl
     (by with_unfolding_all decide) (by with_unfolding_all rfl) (by with_unfolding_all rfl)
     (by with_unfolding_all decide),
   by with_unfolding_all decide⟩

/-- C2: for a plugged stat in an acyclic dependency graph, `calc()` is
idempotent and short-circuits at the fixed point.  After one successful
`calc` wave from `n` (state `ch'`), invoking `calc` on `n` again returns
`(ch', none)` - the state is unchanged - and it does so for EVERY fuel
bound, in particular with fuel `1`, which leaves no budget for recursing
into dependants: the recompute changed neither `normal` nor `value`, so no
stat in `usedby` is recomputed.  The acyclicity hypothesis says no
dependant's propagation wave reaches `n` itself or any stat `n`'s formula
reads. -/
theorem c2_calc_idempotent (f : Nat) (ch : Character) (n : String) (st : Stat) (nm b : Rat)
    (hkeys : (ch.stats.map Prod.fst).Nodup)
    (hst : lookupStat ch n = some st) (hchar : st.char = true)
    (hself : n ∉ readsE st.formula)
    (hnm : evalE ch (toNormal st.formula) = .ok nm)
    (hb : evalE ch st.formula = .ok b)
    (hacyc : ∀ d ∈ st.usedby, ∀ m ∈ reachUpTo f ch d, m ≠ n ∧ m ∉ readsE st.formula) :
    ∀ g : Nat, calcFuel (g + 1) ((calcFuel (f + 1) ch n).1) n
      = ((calcFuel (f + 1) ch n).1, none) := by
  intro g
  have husedby : usedbyOf ch n = st.usedby := by unfold usedbyOf; rw [hst]
  have hwuse : ∀ d ∈ st.usedby, n ∉ reachUpTo f ch d :=
    fun d hd hmem => (hacyc d hd n hmem).1 rfl
  have hw := calc_writes f ch n st nm b hst hchar hself hnm hb hwuse
  have hreads : ∀ k ∈ readsE st.formula,
      lookupStat ((calcFuel (f + 1) ch n).1) k = lookupStat ch k := by
    intro k hk
    apply calc_frame (f + 1) ch n k
    intro hmem
    simp only [reachUpTo, List.mem_cons, List.mem_flatMap] at hmem
    rcases hmem with h1 | ⟨d, hd, hdr⟩
    · exact hself (h1 ▸ hk)
    · rw [husedby] at hd
      exact (hacyc d hd k hdr).2 hk
  have hsk := calcFuel_skel (f + 1) ch n
  have hkeys' : ((calcFuel (f + 1) ch n).1.stats.map Prod.fst).Nodup := by
    rw [hsk.2.2.2.2.2.1]
    exact hkeys
  have hnm' : evalE ((calcFuel (f + 1) ch n).1) (toNormal st.formula) = .ok nm := by
    rw [evalE_congr ch ((calcFuel (f + 1) ch n).1) (toNormal st.formula)
      (fun k hk => by rw [hreads k (by rw [← readsE_toNormal st.formula]; exact hk)])]
    exact hnm
  have hb' : evalE ((calcFuel (f + 1) ch n).1) st.formula = .ok b := by
    rw [evalE_congr ch ((calcFuel (f + 1) ch n).1) st.formula
      (fun k hk => by rw [hreads k hk])]
    exact hb
  have happ' : applyBonuses ((calcFuel (f + 1) ch n).1) st.bonuses b
      = applyBonuses ch st.bonuses b := by
    simp only [applyBonuses, activeValues, lookupBonus, Character.stacksP, hsk.1,
      hsk.2.2.2.2.1]
  have hset : setStat ((calcFuel (f + 1) ch n).1) n
      { st with normal := some nm, value := some (applyBonuses ch st.bonuses b) }
      = (calcFuel (f + 1) ch n).1 :=
    setStat_eq_self _ n _ hkeys' hw
  show calcStep (calcFuel g) ((calcFuel (f + 1) ch n).1) n = _
  unfold calcStep
  rw [hw]
  dsimp only
  rw [if_neg (by simp [hchar])]
  rw [hnm']
  dsimp only
  rw [hset]
  rw [hb']
  dsimp only
  rw [happ']
  rw [if_neg (by simp)]
  rw [hset]

/-- C2 witness: recomputing `dexterity` from stale values changes it to 17
and propagates to `dex` (which becomes 3.5); a second `calc` - even with
fuel for no recursion at all - returns the state unchanged. -/
theorem c2_calc_idempotent_witness :
    (lookupStat ((calcFuel 2 csC2 "dexterity").1) "dex").map (fun x => x.value)
      = some (some ((7 : Rat) / 2)) ∧
    calcFuel 1 ((calcFuel 2 csC2 "dexterity").1) "dexterity"
      = ((calcFuel 2 csC2 "dexterity").1, none) :=
  ⟨by with_unfolding_all rfl,
   c2_calc_idempotent 1 csC2 "dexterity" c2dexterity 17 17
     (by with_unfolding_all decide) (by with_unfolding_all rfl) rfl
     (by with_unfolding_all decide) (by with_unfolding_all rfl) (by with_unfolding_all rfl)
     (by with_unfolding_all decide) 0⟩

/-- C3 (amended): whenever `Stat.plug` raises a FormulaError, the stat's
formula is unchanged, and no stat in the context other than the stat itself
is touched - in particular no stat has this stat's name added to its
`usedby` or its `leaf` flag cleared, and the stat's own `usedby` and `leaf`
are also unchanged; the bonus and effect registries are untouched.  The
attach is NOT atomic beyond that: as the counterexample shows, the stat's
own character binding is set and its `uses`/`root` may already reflect the
aliases resolved before the failing `eval` test. -/
theorem c3_plug_atomicity_amended (f : Nat) (ch : Character) (n : String)
    (ch' : Character) (inner : PyErr)
    (hres : plugFuel f ch n = (ch', some (.formulaError inner))) :
    (∀ m, m ≠ n → lookupStat ch' m = lookupStat ch m) ∧
    (lookupStat ch' n).map (fun st => st.formula)
      = (lookupStat ch n).map (fun st => st.formula) ∧
    (lookupStat ch' n).map (fun st => st.usedby)
      = (lookupStat ch n).map (fun st => st.usedby) ∧
    (lookupStat ch' n).map (fun st => st.leaf)
      = (lookupStat ch n).map (fun st => st.leaf) ∧
    ch'.bonuses = ch.bonuses ∧ ch'.effects = ch.effects := by
  unfold plugFuel at hres
  cases hl : lookupStat ch n with
  | none =>
    rw [hl] at hres
    have := congrArg Prod.snd hres
    simp at this
  | some st0 =>
    rw [hl] at hres
    dsimp only at hres
    split at hres
    next e heq =>
      rw [Prod.mk.injEq] at hres
      obtain ⟨hch, _⟩ := hres
      subst hch
      refine ⟨fun m hm => lookupStat_setStat_ne ch n m _ hm, ?_, ?_, ?_, rfl, rfl⟩
      · rw [lookupStat_setStat_self, hl]
        rfl
      · rw [lookupStat_setStat_self, hl]
        rfl
      · rw [lookupStat_setStat_self, hl]
        rfl
    next v heq =>
      exfalso
      exact calcFuel_ne_formulaError f _ n inner (by rw [hres])

/-- C3 (amended) witness: at the concrete failing plug, the other stat `a`
is untouched and `b`'s formula, `usedby` and `leaf` are unchanged. -/
theorem c3_plug_atomicity_amended_witness :
    lookupStat (plugFuel 2 c3ch1 "b").1 "a" = lookupStat c3ch1 "a" ∧
    (lookupStat (plugFuel 2 c3ch1 "b").1 "b").map (fun st => st.formula)
      = (lookupStat c3ch1 "b").map (fun st => st.formula) ∧
    (lookupStat (plugFuel 2 c3ch1 "b").1 "b").map (fun st => st.usedby)
      = (lookupStat c3ch1 "b").map (fun st => st.usedby) :=
  ⟨(c3_plug_atomicity_amended 2 c3ch1 "b" _ .syntaxError
      (by with_unfolding_all rfl)).1 "a" (by decide),
   (c3_plug_atomicity_amended 2 c3ch1 "b" _ .syntaxError
      (by with_unfolding_all rfl)).2.1,
   (c3_plug_atomicity_amended 2 c3ch1 "b" _ .syntaxError
      (by with_unfolding_all rfl)).2.2.1⟩

theorem bonusAttach_bonuses (f : Nat) (typ bn : String) :
    ∀ (l : List String) (ch : Character),
      ((bonusAttach f typ bn ch l).1).bonuses = ch.bonuses := by
  intro l
  induction l with
  | nil => intro ch; rfl
  | cons s rest ih =>
    intro ch
    unfold bonusAttach
    cases hl : lookupStat ch s with
    | none => rfl
    | some st =>
      dsimp only
      cases hc : calcFuel f
          (setStat ch s { st with bonuses := addBonusEntry st.bonuses typ bn }) s with
      | mk c2 o =>
        have hb : c2.bonuses = ch.bonuses := by
          have h1 := (calcFuel_skel f
            (setStat ch s { st with bonuses := addBonusEntry st.bonuses typ bn }) s).1
          rw [hc] at h1
          exact h1
        cases o with
        | none => exact (ih c2).trans hb
        | some e => exact hb

theorem lookupBonus_congr {ch ch' : Character} (h : ch'.bonuses = ch.bonuses) :
    ∀ m, lookupBonus ch' m = lookupBonus ch m := by
  intro m
  unfold lookupBonus
  rw [h]

/-- C7 (counterexample): the permanent unconditional bonus `gift`, plugged
with constructor argument `active=False`, is active right after `plug()` -
but a single `revert()` call deactivates it: `revert` has no
permanent-category guard and restores `last`, which still holds the
constructor argument `False`.  This contradicts the claim that such a bonus
stays active under any sequence of toggle/on/off/revert calls. -/
theorem c7_revert_deactivates_counterexample :
    (lookupBonus c7ch2 "gift").map (fun b => (b.active, b.last)) = some (true, false) ∧
    (bonusRevert 2 c7ch2 "gift").2 = none ∧
    (lookupBonus (bonusRevert 2 c7ch2 "gift").1 "gift").map (fun b => b.active)
      = some false := by
  exact ⟨by with_unfolding_all rfl, by with_unfolding_all rfl, by with_unfolding_all rfl⟩

/-- C7 (amended): for a plugged, unconditional bonus whose category is in the
context's permanent set, `active` is true immediately after a successful
`plug()` regardless of the constructor's argument, and it remains true under
`toggle` (which is a complete no-op), `on`, and `off` (forced or not).
`revert()`, however, is NOT guarded and can deactivate the bonus by
restoring the constructor-time `last` state, as the counterexample shows -
so permanence holds only for call sequences that avoid `revert`. -/
theorem c7_permanent_bonus_amended (f : Nat) (ch : Character) (bn : String) (b : Bonus)
    (hb : lookupBonus ch bn = some b)
    (hcond : b.condition = "")
    (hperm : ch.bonusPerm.contains b.typ = true) :
    ((bonusPlug f ch bn).2 = none →
      (lookupBonus (bonusPlug f ch bn).1 bn).map (fun x => x.active) = some true) ∧
    (b.active = true → b.char = true →
      (∀ new, bonusToggle f ch bn new = (ch, none)) ∧
      (lookupBonus (bonusOn f ch bn).1 bn).map (fun x => x.active) = some true ∧
      (∀ force, (lookupBonus (bonusOff f ch bn force).1 bn).map (fun x => x.active)
        = some true)) := by
  have hcondb : (b.condition == "") = true := beq_iff_eq.mpr hcond
  constructor
  · -- after plug
    intro hok
    unfold bonusPlug at hok ⊢
    rw [hb] at hok ⊢
    dsimp only at hok ⊢
    by_cases htyp : (!ch.bonusTypes.isEmpty && !ch.bonusTypes.contains b.typ) = true
    · rw [if_pos htyp] at hok
      simp at hok
    · rw [if_neg htyp] at hok ⊢
      cases hA : bonusAttach f b.typ bn ch b.stats with
      | mk ch1 o =>
        rw [hA] at hok
        cases o with
        | some e => simp at hok
        | none =>
          dsimp only
          have hbb : ch1.bonuses = ch.bonuses := by
            have h2 := bonusAttach_bonuses f b.typ bn b.stats ch
            rw [hA] at h2
            exact h2
          have hb1 : lookupBonus ch1 bn = some b := (lookupBonus_congr hbb bn).trans hb
          rw [if_pos (by rw [hcondb, hperm]; rfl)]
          have e1 : updBonus ch1 bn (fun x => { x with char := true })
              = setBonus ch1 bn { b with char := true } := by
            unfold updBonus
            rw [hb1]
          rw [e1]
          have hb2 : lookupBonus (setBonus ch1 bn { b with char := true }) bn
              = some { b with char := true } := by
            rw [lookupBonus_setBonus_self, hb1]
            rfl
          have e2 : updBonus (setBonus ch1 bn { b with char := true }) bn
              (fun x => { x with active := true })
              = setBonus (setBonus ch1 bn { b with char := true }) bn
                  { b with char := true, active := true } := by
            unfold updBonus
            rw [hb2]
          rw [e2]
          rw [lookupBonus_setBonus_self, hb2]
          rfl
  · intro hact hchar
    have htog : ∀ new, bonusToggle f ch bn new = (ch, none) := by
      intro new
      unfold bonusToggle
      rw [hb]
      dsimp only
      rw [if_neg (by simp [hchar])]
      rw [if_pos (by rw [hcondb, hperm]; rfl)]
    refine ⟨htog, ?_, ?_⟩
    · unfold bonusOn
      rw [htog true, hb]
      simp [hact]
    · intro force
      unfold bonusOff
      rw [hb]
      dsimp only
      cases force with
      | true =>
        rw [if_pos rfl, htog false, hb]
        simp [hact]
      | false =>
        rw [if_neg (by simp)]
        by_cases hu : b.usedby.isEmpty = true
        · rw [if_pos hu, htog false, hb]
          simp [hact]
        · rw [if_neg hu]
          dsimp only
          rw [hb]
          simp [hact]

/-- C7 (amended) witness: on the plugged permanent bonus (already active),
plugging again reports it active, `toggle` is a no-op, and `on`/`off` leave
it active. -/
theorem c7_permanent_bonus_amended_witness :
    ((bonusPlug 2 c7ch2 "gift").2 = none →
      (lookupBonus (bonusPlug 2 c7ch2 "gift").1 "gift").map (fun x => x.active)
        = some true) ∧
    bonusToggle 2 c7ch2 "gift" false = (c7ch2, none) ∧
    (lookupBonus (bonusOff 2 c7ch2 "gift" false).1 "gift").map (fun x => x.active)
      = some true := by
  have h := c7_permanent_bonus_amended 2 c7ch2 "gift"
    (mkBonus "gift" 2 ["hp"] (some "perm") none false |>
      fun b0 => { b0 with char := true, active := true })
    (by with_unfolding_all rfl) (by with_unfolding_all rfl) (by with_unfolding_all rfl)
  exact ⟨h.1, (h.2 rfl rfl).1 false, ((h.2 rfl rfl).2.2) false⟩

/-! ## Alias-resolution lemmas (for the plug/unplug inverse) -/

theorem readsE_substAli (sig : Sigil) (m : String) :
    ∀ (e : Expr) (k : String), k ∈ readsE (substAli sig m e) → k ∈ readsE e ∨ k = m := by
  intro e
  induction e with
  | lit i => intro k hk; simp [substAli, readsE] at hk
  | ali s w =>
    intro k hk
    simp only [substAli] at hk
    by_cases hc : (s == sig && w == m) = true
    · rw [if_pos hc] at hk
      simp only [readsE, List.mem_singleton] at hk
      right
      rw [hk]
      exact beq_iff_eq.mp (Bool.and_elim_right hc)
    · rw [if_neg hc] at hk
      simp [readsE] at hk
  | sref s w => intro k hk; exact Or.inl hk
  | add a b iha ihb =>
    intro k hk
    simp only [substAli, readsE, List.mem_append] at hk ⊢
    rcases hk with hk | hk
    · rcases iha k hk with h | h
      · exact Or.inl (Or.inl h)
      · exact Or.inr h
    · rcases ihb k hk with h | h
      · exact Or.inl (Or.inr h)
      · exact Or.inr h
  | sub a b iha ihb =>
    intro k hk
    simp only [substAli, readsE, List.mem_append] at hk ⊢
    rcases hk with hk | hk
    · rcases iha k hk with h | h
      · exact Or.inl (Or.inl h)
      · exact Or.inr h
    · rcases ihb k hk with h | h
      · exact Or.inl (Or.inr h)
      · exact Or.inr h
  | mul a b iha ihb =>
    intro k hk
    simp only [substAli, readsE, List.mem_append] at hk ⊢
    rcases hk with hk | hk
    · rcases iha k hk with h | h
      · exact Or.inl (Or.inl h)
      · exact Or.inr h
    · rcases ihb k hk with h | h
      · exact Or.inl (Or.inr h)
      · exact Or.inr h
  | div a b iha ihb =>
    intro k hk
    simp only [substAli, readsE, List.mem_append] at hk ⊢
    rcases hk with hk | hk
    · rcases iha k hk with h | h
      · exact Or.inl (Or.inl h)
      · exact Or.inr h
    · rcases ihb k hk with h | h
      · exact Or.inl (Or.inr h)
      · exact Or.inr h
  | neg a iha =>
    intro k hk
    exact iha k hk

theorem occursRef_substAli (sig : Sigil) (k : String) (sig2 : Sigil) (m2 : String) :
    ∀ e : Expr, occursRef sig k e = true → occursRef sig k (substAli sig2 m2 e) = true := by
  intro e
  induction e with
  | lit i => intro h; simp [occursRef] at h
  | ali s w => intro h; simp [occursRef] at h
  | sref s w => intro h; exact h
  | add a b iha ihb =>
    intro h
    simp only [occursRef, Bool.or_eq_true, substAli] at h ⊢
    rcases h with h | h
    · exact Or.inl (iha h)
    · exact Or.inr (ihb h)
  | sub a b iha ihb =>
    intro h
    simp only [occursRef, Bool.or_eq_true, substAli] at h ⊢
    rcases h with h | h
    · exact Or.inl (iha h)
    · exact Or.inr (ihb h)
  | mul a b iha ihb =>
    intro h
    simp only [occursRef, Bool.or_eq_true, substAli] at h ⊢
    rcases h with h | h
    · exact Or.inl (iha h)
    · exact Or.inr (ihb h)
  | div a b iha ihb =>
    intro h
    simp only [occursRef, Bool.or_eq_true, substAli] at h ⊢
    rcases h with h | h
    · exact Or.inl (iha h)
    · exact Or.inr (ihb h)
  | neg a iha => intro h; exact iha h

theorem containsAli_occursRef (sig : Sigil) (m : String) :
    ∀ e : Expr, containsAli sig m e = true → occursRef sig m (substAli sig m e) = true := by
  intro e
  induction e with
  | lit i => intro h; simp [containsAli] at h
  | ali s w =>
    intro h
    simp only [containsAli] at h
    simp only [substAli, h, if_true, occursRef]
  | sref s w => intro h; simp [containsAli] at h
  | add a b iha ihb =>
    intro h
    simp only [containsAli, Bool.or_eq_true] at h
    simp only [substAli, occursRef, Bool.or_eq_true]
    rcases h with h | h
    · exact Or.inl (iha h)
    · exact Or.inr (ihb h)
  | sub a b iha ihb =>
    intro h
    simp only [containsAli, Bool.or_eq_true] at h
    simp only [substAli, occursRef, Bool.or_eq_true]
    rcases h with h | h
    · exact Or.inl (iha h)
    · exact Or.inr (ihb h)
  | mul a b iha ihb =>
    intro h
    simp only [containsAli, Bool.or_eq_true] at h
    simp only [substAli, occursRef, Bool.or_eq_true]
    rcases h with h | h
    · exact Or.inl (iha h)
    · exact Or.inr (ihb h)
  | div a b iha ihb =>
    intro h
    simp only [containsAli, Bool.or_eq_true] at h
    simp only [substAli, occursRef, Bool.or_eq_true]
    rcases h with h | h
    · exact Or.inl (iha h)
    · exact Or.inr (ihb h)
  | neg a iha => intro h; exact iha h

/-- A successfully evaluated expression has, for every resolved reference it
contains, a registered stat with the referenced field set. -/
theorem evalE_ok_ref (ch : Character) :
    ∀ (e : Expr) (w : Rat), evalE ch e = .ok w →
      ∀ (sig : Sigil) (k : String), occursRef sig k e = true →
        ∃ s, lookupStat ch k = some s ∧ (sigilField sig s).isSome := by
  intro e
  induction e with
  | lit i => intro w hw sig k hk; simp [occursRef] at hk
  | ali s m => intro w hw sig k hk; simp [occursRef] at hk
  | sref s m =>
    intro w hw sig k hk
    simp only [occursRef, Bool.and_eq_true] at hk
    have hs : s = sig := beq_iff_eq.mp hk.1
    have hm : m = k := beq_iff_eq.mp hk.2
    subst hs
    subst hm
    simp only [evalE] at hw
    cases hl : lookupStat ch m with
    | none => rw [hl] at hw; simp at hw
    | some st =>
      rw [hl] at hw
      dsimp only at hw
      cases hf : sigilField s st with
      | none => rw [hf] at hw; simp at hw
      | some v => exact ⟨st, rfl, by rw [hf]; rfl⟩
  | add a b iha ihb =>
    intro w hw sig k hk
    simp only [evalE, bind, Except.bind] at hw
    simp only [occursRef, Bool.or_eq_true] at hk
    cases ha : evalE ch a with
    | error e1 => rw [ha] at hw; simp at hw
    | ok x =>
      rw [ha] at hw
      dsimp only at hw
      cases hb : evalE ch b with
      | error e2 => rw [hb] at hw; simp at hw
      | ok y =>
        rcases hk with hk | hk
        · exact iha x ha sig k hk
        · exact ihb y hb sig k hk
  | sub a b iha ihb =>
    intro w hw sig k hk
    simp only [evalE, bind, Except.bind] at hw
    simp only [occursRef, Bool.or_eq_true] at hk
    cases ha : evalE ch a with
    | error e1 => rw [ha] at hw; simp at hw
    | ok x =>
      rw [ha] at hw
      dsimp only at hw
      cases hb : evalE ch b with
      | error e2 => rw [hb] at hw; simp at hw
      | ok y =>
        rcases hk with hk | hk
        · exact iha x ha sig k hk
        · exact ihb y hb sig k hk
  | mul a b iha ihb =>
    intro w hw sig k hk
    simp only [evalE, bind, Except.bind] at hw
    simp only [occursRef, Bool.or_eq_true] at hk
    cases ha : evalE ch a with
    | error e1 => rw [ha] at hw; simp at hw
    | ok x =>
      rw [ha] at hw
      dsimp only at hw
      cases hb : evalE ch b with
      | error e2 => rw [hb] at hw; simp at hw
      | ok y =>
        rcases hk with hk | hk
        · exact iha x ha sig k hk
        · exact ihb y hb sig k hk
  | div a b iha ihb =>
    intro w hw sig k hk
    simp only [evalE, bind, Except.bind] at hw
    simp only [occursRef, Bool.or_eq_true] at hk
    cases ha : evalE ch a with
    | error e1 => rw [ha] at hw; simp at hw
    | ok x =>
      rw [ha] at hw
      dsimp only at hw
      cases hb : evalE ch b with
      | error e2 => rw [hb] at hw; simp at hw
      | ok y =>
        rcases hk with hk | hk
        · exact iha x ha sig k hk
        · exact ihb y hb sig k hk
  | neg a iha =>
    intro w hw sig k hk
    simp only [evalE, bind, Except.bind] at hw
    cases ha : evalE ch a with
    | error e1 => rw [ha] at hw; simp at hw
    | ok x => exact iha x ha sig k hk

theorem filter_ne_of_not_mem (x : String) :
    ∀ l : List String, x ∉ l → l.filter (fun y => y != x) = l := by
  intro l
  induction l with
  | nil => intro _; rfl
  | cons a l ih =>
    intro h
    simp only [List.mem_cons, not_or] at h
    have ha : (a != x) = true := by
      simp only [bne_iff_ne, ne_eq]
      exact fun hh => h.1 hh.symm
    simp only [List.filter_cons, ha, if_true]
    rw [ih h.2]

theorem insertS_of_not_mem (x : String) (l : List String) (h : x ∉ l) :
    insertS x l = l ++ [x] := by
  unfold insertS
  rw [if_neg (by simpa using h)]

theorem mem_insertS (x y : String) (l : List String) :
    y ∈ insertS x l ↔ y ∈ l ∨ y = x := by
  unfold insertS
  by_cases h : l.contains x
  · rw [if_pos h]
    constructor
    · exact fun hy => Or.inl hy
    · intro hy
      rcases hy with hy | hy
      · exact hy
      · rw [hy]
        simpa using h
  · rw [if_neg h]
    simp [List.mem_append]

theorem insertS_nodup (x : String) (l : List String) (h : l.Nodup) :
    (insertS x l).Nodup := by
  unfold insertS
  by_cases hc : l.contains x
  · rw [if_pos hc]
    exact h
  · rw [if_neg hc]
    rw [List.nodup_append]
    refine ⟨h, List.nodup_singleton x, ?_⟩
    intro a ha hax
    simp only [List.mem_singleton] at hax
    rw [hax] at ha
    have hx : x ∉ l := by simpa using hc
    exact hx ha

theorem substAli_id (sig : Sigil) (m : String) :
    ∀ e : Expr, containsAli sig m e = false → substAli sig m e = e := by
  intro e
  induction e with
  | lit i => intro _; rfl
  | ali s w =>
    intro h
    simp only [containsAli] at h
    simp only [substAli, h, Bool.false_eq_true, if_false]
  | sref s w => intro _; rfl
  | add a b iha ihb =>
    intro h
    simp only [containsAli, Bool.or_eq_false_iff] at h
    simp only [substAli, iha h.1, ihb h.2]
  | sub a b iha ihb =>
    intro h
    simp only [containsAli, Bool.or_eq_false_iff] at h
    simp only [substAli, iha h.1, ihb h.2]
  | mul a b iha ihb =>
    intro h
    simp only [containsAli, Bool.or_eq_false_iff] at h
    simp only [substAli, iha h.1, ihb h.2]
  | div a b iha ihb =>
    intro h
    simp only [containsAli, Bool.or_eq_false_iff] at h
    simp only [substAli, iha h.1, ihb h.2]
  | neg a iha =>
    intro h
    simp only [containsAli] at h
    simp only [substAli, iha h]

theorem pass_good (e0 : Expr) (K : List String) (sig : Sigil) (m : String) (hm : m ∈ K)
    (e : Expr) (us ub : List String) (h : resolveGood e0 K e us ub) :
    resolveGood e0 K (substAli sig m e)
      (if containsAli sig m e then insertS m us else us)
      (if containsAli sig m e then insertS m ub else ub) := by
  obtain ⟨h1, h2, h3, h4, h5⟩ := h
  by_cases hc : containsAli sig m e = true
  · rw [if_pos hc, if_pos hc]
    refine ⟨by rw [h1], insertS_nodup m ub h2, ?_, ?_, ?_⟩
    · intro k hk
      rcases (mem_insertS m k ub).mp hk with hk | hk
      · exact h3 k hk
      · rw [hk]; exact hm
    · intro k hk
      rcases (mem_insertS m k ub).mp hk with hk | hk
      · rcases h4 k hk with ho | ho
        · exact Or.inl (occursRef_substAli .cur k sig m e ho)
        · exact Or.inr (occursRef_substAli .nrm k sig m e ho)
      · subst hk
        cases sig with
        | cur => exact Or.inl (containsAli_occursRef .cur k e hc)
        | nrm => exact Or.inr (containsAli_occursRef .nrm k e hc)
    · intro k hk
      rcases readsE_substAli sig m e k hk with hk | hk
      · rcases h5 k hk with hr | hr
        · exact Or.inl hr
        · exact Or.inr ((mem_insertS m k ub).mpr (Or.inl hr))
      · exact Or.inr ((mem_insertS m k ub).mpr (Or.inr hk))
  · have hc' : containsAli sig m e = false := by
      cases hx : containsAli sig m e with
      | true => exact absurd hx hc
      | false => rfl
    rw [if_neg hc, if_neg hc, substAli_id sig m e hc']
    exact ⟨h1, h2, h3, h4, h5⟩

theorem resolveName_good (e0 : Expr) (K : List String) (m : String) (hm : m ∈ K)
    (e : Expr) (us : List String) (rt : Bool) (ub : List String)
    (h : resolveGood e0 K e us ub) :
    resolveGood e0 K (resolveName m (e, us, rt, ub)).1
      (resolveName m (e, us, rt, ub)).2.1 (resolveName m (e, us, rt, ub)).2.2.2 := by
  simp only [resolveName]
  exact pass_good e0 K .nrm m hm _ _ _ (pass_good e0 K .cur m hm e us ub h)

theorem foldl_resolve_keys (l : List (String × Stat)) :
    ∀ acc : Expr × List String × Bool × List String,
      l.foldl (fun a p => resolveName p.1 a) acc = resolveAll (l.map Prod.fst) acc := by
  induction l with
  | nil => intro acc; rfl
  | cons p l ih =>
    intro acc
    simp only [List.foldl_cons, List.map_cons, resolveAll] at ih ⊢
    exact ih _

theorem resolveAll_good (e0 : Expr) (K : List String) :
    ∀ (keys : List String), (∀ m ∈ keys, m ∈ K) →
      ∀ (e : Expr) (us : List String) (rt : Bool) (ub : List String),
        resolveGood e0 K e us ub →
        resolveGood e0 K (resolveAll keys (e, us, rt, ub)).1
          (resolveAll keys (e, us, rt, ub)).2.1
          (resolveAll keys (e, us, rt, ub)).2.2.2 := by
  intro keys
  induction keys with
  | nil => intro _ e us rt ub h; exact h
  | cons m rest ih =>
    intro hK e us rt ub h
    have hstep := resolveName_good e0 K m (hK m (List.mem_cons_self m rest)) e us rt ub h
    have hrest := ih (fun x hx => hK x (List.mem_cons_of_mem m hx))
      (resolveName m (e, us, rt, ub)).1 (resolveName m (e, us, rt, ub)).2.1
      (resolveName m (e, us, rt, ub)).2.2.1 (resolveName m (e, us, rt, ub)).2.2.2 hstep
    simpa [resolveAll] using hrest

/-! ## Edge registration and removal -/

theorem addEdges_props (n : String) :
    ∀ (ub : List String) (ch : Character),
      ub.Nodup →
      (∀ m, m ∉ ub → lookupStat (addEdges n ub ch) m = lookupStat ch m) ∧
      (∀ u ∈ ub, lookupStat (addEdges n ub ch) u
        = (lookupStat ch u).map
            (fun s => { s with usedby := insertS n s.usedby, leaf := false })) ∧
      (addEdges n ub ch).bonuses = ch.bonuses ∧
      (addEdges n ub ch).effects = ch.effects ∧
      (addEdges n ub ch).bonusTypes = ch.bonusTypes ∧
      (addEdges n ub ch).bonusPerm = ch.bonusPerm ∧
      (addEdges n ub ch).stacksList = ch.stacksList ∧
      (addEdges n ub ch).stats.map Prod.fst = ch.stats.map Prod.fst := by
  intro ub
  induction ub with
  | nil =>
    intro ch _
    exact ⟨fun m _ => rfl, fun u hu => absurd hu (List.not_mem_nil u), rfl, rfl, rfl, rfl,
      rfl, rfl⟩
  | cons u0 rest ih =>
    intro ch hnd
    rw [List.nodup_cons] at hnd
    have hstep : addEdges n (u0 :: rest) ch
        = addEdges n rest (updStat ch u0
            (fun u => { u with usedby := insertS n u.usedby, leaf := false })) := by
      simp only [addEdges, List.foldl_cons]
    have hupd0 : ∀ m, m ≠ u0 →
        lookupStat (updStat ch u0
          (fun u => { u with usedby := insertS n u.usedby, leaf := false })) m
          = lookupStat ch m := by
      intro m hm
      unfold updStat
      cases hl : lookupStat ch u0 with
      | none => rfl
      | some s => exact lookupStat_setStat_ne ch u0 m _ hm
    have hupdself : lookupStat (updStat ch u0
        (fun u => { u with usedby := insertS n u.usedby, leaf := false })) u0
        = (lookupStat ch u0).map
            (fun s => { s with usedby := insertS n s.usedby, leaf := false }) := by
      unfold updStat
      cases hl : lookupStat ch u0 with
      | none => rw [hl]; rfl
      | some s =>
        rw [lookupStat_setStat_self, hl]
        rfl
    have hupdreg : ∀ ch0 : Character, ∀ u0 : String,
        (updStat ch0 u0 (fun u => { u with usedby := insertS n u.usedby, leaf := false })).bonuses
          = ch0.bonuses ∧
        (updStat ch0 u0 (fun u => { u with usedby := insertS n u.usedby, leaf := false })).effects
          = ch0.effects ∧
        (updStat ch0 u0 (fun u => { u with usedby := insertS n u.usedby, leaf := false })).bonusTypes
          = ch0.bonusTypes ∧
        (updStat ch0 u0 (fun u => { u with usedby := insertS n u.usedby, leaf := false })).bonusPerm
          = ch0.bonusPerm ∧
        (updStat ch0 u0 (fun u => { u with usedby := insertS n u.usedby, leaf := false })).stacksList
          = ch0.stacksList ∧
        (updStat ch0 u0 (fun u => { u with usedby := insertS n u.usedby, leaf := false })).stats.map
            Prod.fst = ch0.stats.map Prod.fst := by
      intro ch0 u1
      unfold updStat
      cases hl : lookupStat ch0 u1 with
      | none => exact ⟨rfl, rfl, rfl, rfl, rfl, rfl⟩
      | some s => exact ⟨rfl, rfl, rfl, rfl, rfl, setStat_keys ch0 u1 _⟩
    obtain ⟨ih1, ih2, ih3, ih4, ih5, ih6, ih7, ih8⟩ :=
      ih (updStat ch u0 (fun u => { u with usedby := insertS n u.usedby, leaf := false })) hnd.2
    obtain ⟨hr1, hr2, hr3, hr4, hr5, hr6⟩ := hupdreg ch u0
    refine ⟨?_, ?_, ?_, ?_, ?_, ?_, ?_, ?_⟩
    · intro m hm
      simp only [List.mem_cons, not_or] at hm
      rw [hstep, ih1 m (hm.2), hupd0 m hm.1]
    · intro u hu
      rcases List.mem_cons.mp hu with hu | hu
      · subst hu
        rw [hstep, ih1 u (fun hin => hnd.1 hin), hupdself]
      · rw [hstep, ih2 u hu, hupd0 u (fun he => hnd.1 (he ▸ hu))]
    · rw [hstep, ih3, hr1]
    · rw [hstep, ih4, hr2]
    · rw [hstep, ih5, hr3]
    · rw [hstep, ih6, hr4]
    · rw [hstep, ih7, hr5]
    · rw [hstep, ih8, hr6]

theorem lookupStat_mem (ch : Character) (u : String) (su : Stat)
    (h : lookupStat ch u = some su) :
    ∃ p ∈ ch.stats, p.1 = u ∧ p.2 = su := by
  unfold lookupStat at h
  cases hf : ch.stats.find? (fun p => p.1 == u) with
  | none => rw [hf] at h; simp at h
  | some a =>
    rw [hf] at h
    simp only [Option.map_some'] at h
    have hmem := List.mem_of_find?_eq_some hf
    have hpred := List.find?_some hf
    exact ⟨a, hmem, beq_iff_eq.mp hpred, Option.some.inj h⟩

theorem lookupStat_isSome_of_key (ch : Character) (u : String)
    (h : u ∈ ch.stats.map Prod.fst) :
    ∃ su, lookupStat ch u = some su := by
  obtain ⟨p, hp, hpu⟩ := List.mem_map.mp h
  have : (ch.stats.find? (fun q => q.1 == u)).isSome :=
    List.find?_isSome.mpr ⟨p, hp, beq_iff_eq.mpr hpu⟩
  cases hf : ch.stats.find? (fun q => q.1 == u) with
  | none => rw [hf] at this; simp at this
  | some a => exact ⟨a.2, by unfold lookupStat; rw [hf]; rfl⟩

/-- Running the `for name in self.uses` removal loop over distinct names,
each holding exactly the edge `plug` added, restores each of them to its
pre-plug record and touches nothing else. -/
theorem removeUses_restore (selfN : String) (chRef : Character) :
    ∀ (U : List String) (chS : Character),
      U.Nodup →
      selfN ∉ U →
      (∀ u ∈ U, ∃ su : Stat, lookupStat chRef u = some su ∧
          lookupStat chS u = some { su with usedby := su.usedby ++ [selfN], leaf := false } ∧
          selfN ∉ su.usedby ∧ su.leaf = su.usedby.isEmpty) →
      ∃ chT : Character, removeUses selfN chS U = (chT, none) ∧
        (∀ u ∈ U, lookupStat chT u = lookupStat chRef u) ∧
        (∀ m, m ∉ U → lookupStat chT m = lookupStat chS m) ∧
        chT.bonuses = chS.bonuses ∧ chT.effects = chS.effects ∧
        chT.bonusTypes = chS.bonusTypes ∧ chT.bonusPerm = chS.bonusPerm ∧
        chT.stacksList = chS.stacksList ∧
        chT.stats.map Prod.fst = chS.stats.map Prod.fst := by
  intro U
  induction U with
  | nil =>
    intro chS _ _ _
    exact ⟨chS, rfl, fun u hu => absurd hu (List.not_mem_nil u),
      fun m _ => rfl, rfl, rfl, rfl, rfl, rfl, rfl⟩
  | cons u0 rest ih =>
    intro chS hnd hself hU
    rw [List.nodup_cons] at hnd
    simp only [List.mem_cons, not_or] at hself
    obtain ⟨su, hRef, hS, hnotin, hleaf⟩ := hU u0 (List.mem_cons_self u0 rest)
    have hcont : ({ su with usedby := su.usedby ++ [selfN], leaf := false } : Stat).usedby.contains
        selfN = true := by
      simp
    have hfil : (su.usedby ++ [selfN]).filter (fun y => y != selfN) = su.usedby := by
      rw [List.filter_append, filter_ne_of_not_mem selfN su.usedby hnotin]
      simp
    have hst2 : (if (({ su with usedby := su.usedby ++ [selfN], leaf := false } : Stat).usedby.filter
          (fun y => y != selfN)).isEmpty
        then { ({ su with usedby := su.usedby ++ [selfN], leaf := false } : Stat) with
            usedby := ({ su with usedby := su.usedby ++ [selfN], leaf := false } : Stat).usedby.filter
              (fun y => y != selfN), leaf := true }
        else { ({ su with usedby := su.usedby ++ [selfN], leaf := false } : Stat) with
            usedby := ({ su with usedby := su.usedby ++ [selfN], leaf := false } : Stat).usedby.filter
              (fun y => y != selfN) }) = su := by
      simp only [hfil]
      by_cases he : su.usedby.isEmpty
      · rw [if_pos he]
        have hlt : su.leaf = true := by rw [hleaf, he]
        rw [← hlt]
      · rw [if_neg he]
        have hlf : su.leaf = false := by
          rw [hleaf]
          cases hx : su.usedby.isEmpty with
          | true => exact absurd hx he
          | false => rfl
        rw [← hlf]
    have hrec : ∀ u ∈ rest, ∃ su2 : Stat, lookupStat chRef u = some su2 ∧
        lookupStat (setStat chS u0 su) u
          = some { su2 with usedby := su2.usedby ++ [selfN], leaf := false } ∧
        selfN ∉ su2.usedby ∧ su2.leaf = su2.usedby.isEmpty := by
      intro u hu
      obtain ⟨su2, h1, h2, h3, h4⟩ := hU u (List.mem_cons_of_mem u0 hu)
      exact ⟨su2, h1, by rw [lookupStat_setStat_ne chS u0 u su
        (fun he => hnd.1 (he ▸ hu))]; exact h2, h3, h4⟩
    obtain ⟨chT, hrun, hres, hframe, hb, he, hbt, hbp, hsl, hkeys⟩ :=
      ih (setStat chS u0 su) hnd.2 hself.2 hrec
    refine ⟨chT, ?_, ?_, ?_, ?_, ?_, ?_, ?_, ?_, ?_⟩
    · show removeUses selfN chS (u0 :: rest) = (chT, none)
      unfold removeUses
      rw [hS]
      dsimp only
      rw [if_pos hcont]
      rw [hst2]
      exact hrun
    · intro u hu
      rcases List.mem_cons.mp hu with hu | hu
      · subst hu
        rw [hframe u (fun hin => hnd.1 hin), lookupStat_setStat_self, hS]
        simp [hRef]
      · exact hres u hu
    · intro m hm
      simp only [List.mem_cons, not_or] at hm
      rw [hframe m hm.2, lookupStat_setStat_ne chS u0 m su hm.1]
    · rw [hb]; rfl
    · rw [he]; rfl
    · rw [hbt]; rfl
    · rw [hbp]; rfl
    · rw [hsl]; rfl
    · rw [hkeys, setStat_keys]

/-- A successful `calc` on a stat with no dependants: both evaluations
succeeded and the result is exactly the two field writes. -/
theorem calc_noDeps (f : Nat) (ch : Character) (n : String) (s : Stat) (chR : Character)
    (hl : lookupStat ch n = some s) (hchar : s.char = true) (hub : s.usedby = [])
    (hok : calcFuel (f + 1) ch n = (chR, none)) :
    ∃ nm bv, evalE ch (toNormal s.formula) = .ok nm ∧
      evalE (setStat ch n { s with normal := some nm }) s.formula = .ok bv ∧
      chR = setStat ch n
        { s with normal := some nm, value := some (applyBonuses ch s.bonuses bv) } := by
  have hok' : calcStep (calcFuel f) ch n = (chR, none) := hok
  obtain ⟨s1, s2, s3, s4, s5, s6, s7, s8, s9, s10, s11, s12, s13⟩ := s
  dsimp only at hchar hub
  subst hub
  subst hchar
  unfold calcStep at hok'
  rw [hl] at hok'
  dsimp only at hok'
  rw [if_neg (by simp)] at hok'
  split at hok'
  next e heq => exact absurd (congrArg Prod.snd hok') (by simp)
  next nm heq =>
    split at hok'
    next e heq2 => exact absurd (congrArg Prod.snd hok') (by simp)
    next bv heq2 =>
      refine ⟨nm, bv, heq, heq2, ?_⟩
      rw [setStat_setStat] at hok'
      split at hok'
      · simp only [runList] at hok'
        exact (congrArg Prod.fst hok').symm
      · exact (congrArg Prod.fst hok').symm

/-- The success construction matching `calc_noDeps`. -/
theorem calc_noDeps_ok (f : Nat) (ch : Character) (n : String) (s : Stat) (nm bv : Rat)
    (hl : lookupStat ch n = some s) (hchar : s.char = true) (hub : s.usedby = [])
    (hnm : evalE ch (toNormal s.formula) = .ok nm)
    (hbv : evalE (setStat ch n { s with normal := some nm }) s.formula = .ok bv) :
    calcFuel (f + 1) ch n
      = (setStat ch n
          { s with normal := some nm, value := some (applyBonuses ch s.bonuses bv) }, none) := by
  show calcStep (calcFuel f) ch n = _
  obtain ⟨s1, s2, s3, s4, s5, s6, s7, s8, s9, s10, s11, s12, s13⟩ := s
  dsimp only at hchar hub hnm hbv ⊢
  subst hub
  subst hchar
  unfold calcStep
  rw [hl]
  dsimp only
  rw [if_neg (by simp), hnm]
  dsimp only
  rw [hbv]
  dsimp only
  rw [setStat_setStat]
  split
  · simp only [runList]
    rfl
  · rfl

theorem updStat_eq (ch : Character) (n : String) (g : Stat → Stat) (s : Stat)
    (h : lookupStat ch n = some s) : updStat ch n g = setStat ch n (g s) := by
  unfold updStat
  rw [h]

/-- C5: on a fresh detached stat whose stored formula still equals its
original and carries no already-resolved references, in a context whose
dependency invariants hold (no stat lists it as a dependant, and `leaf`
mirrors emptiness of `usedby`), a successful `plug` followed by `unplug()`
is an inverse: `unplug` succeeds, every other stat is restored exactly (in
particular each `uses` target's `usedby` set and `leaf` flag), the stat
itself returns to its detached record - formula equal to `original`,
`uses`/`usedby` empty, `root`/`leaf` true, character binding cleared -
keeping only the computed `value`/`normal` caches, the bonus and effect
registries are unchanged, and plugging again succeeds. -/
theorem c5_plug_unplug_inverse (f : Nat) (ch : Character) (n : String) (st0 : Stat)
    (chA : Character)
    (hst : lookupStat ch n = some st0)
    (hchar0 : st0.char = false) (huses0 : st0.uses = []) (husedby0 : st0.usedby = [])
    (hroot0 : st0.root = true) (hleaf0 : st0.leaf = true)
    (hform0 : st0.formula = st0.original)
    (hval0 : st0.value = none) (hnorm0 : st0.normal = none)
    (hnoref : readsE st0.formula = [])
    (hinv : ∀ p ∈ ch.stats, n ∉ p.2.usedby ∧ p.2.leaf = p.2.usedby.isEmpty)
    (hplug : plugFuel (f + 1) ch n = (chA, none)) :
    ∃ (ch2 : Character) (v w : Rat),
      unplugFuel 1 chA n false false = (ch2, none) ∧
      (∀ m, m ≠ n → lookupStat ch2 m = lookupStat ch m) ∧
      lookupStat ch2 n = some { st0 with value := some v, normal := some w } ∧
      ch2.bonuses = ch.bonuses ∧ ch2.effects = ch.effects ∧
      (plugFuel (f + 1) ch2 n).2 = none := by
  obtain ⟨s1, s2, s3, s4, s5, s6, s7, s8, s9, s10, s11, s12, s13⟩ := st0
  dsimp only at hchar0 huses0 husedby0 hroot0 hleaf0 hform0 hval0 hnorm0 hnoref ⊢
  subst hchar0
  subst huses0
  subst husedby0
  subst hroot0
  subst hleaf0
  subst hval0
  subst hnorm0
  subst hform0
  unfold plugFuel at hplug
  rw [hst] at hplug
  dsimp only at hplug
  rw [foldl_resolve_keys] at hplug
  set R := resolveAll (List.map Prod.fst ch.stats) (s2, [], true, []) with hRdef
  have hgood := resolveAll_good s2 (List.map Prod.fst ch.stats) (List.map Prod.fst ch.stats)
    (fun m hm => hm) s2 [] true []
    ⟨rfl, List.nodup_nil, by simp, by simp, fun k hk => Or.inl hk⟩
  rw [← hRdef] at hgood
  obtain ⟨hUeq, hnodUB, hsubK, hocc, hreads0⟩ := hgood
  have hreads : ∀ k ∈ readsE R.1, k ∈ R.2.2.2 := by
    intro k hk
    rcases hreads0 k hk with h | h
    · rw [hnoref] at h
      simp at h
    · exact h
  set ST1 : Stat := (⟨s1, s2, s2, s4, s5, s6, R.2.1, [], none, none, R.2.2.1, true, true⟩ : Stat)
    with hST1
  set CH1 : Character := setStat ch n ST1 with hCH1
  have hlk1 : lookupStat CH1 n = some ST1 := by
    rw [hCH1, lookupStat_setStat_self, hst]
    rfl
  obtain ⟨w, heqW, hplug2⟩ : ∃ w, evalE CH1 R.1 = .ok w ∧
      calcFuel (f + 1) (updStat (addEdges n R.2.2.2 CH1) n
        (fun u => { u with formula := R.1 })) n = (chA, none) := by
    split at hplug
    next e heqE => exact absurd (congrArg Prod.snd hplug) (by simp)
    next w heqW => exact ⟨w, heqW, hplug⟩
  have hnUB : n ∉ R.2.2.2 := by
    intro hmem
    rcases hocc n hmem with ho | ho
    · obtain ⟨s, hs, hsome⟩ := evalE_ok_ref CH1 R.1 w heqW .cur n ho
      have hsx := Option.some.inj (hs.symm.trans hlk1)
      rw [hsx, hST1] at hsome
      simp [sigilField] at hsome
    · obtain ⟨s, hs, hsome⟩ := evalE_ok_ref CH1 R.1 w heqW .nrm n ho
      have hsx := Option.some.inj (hs.symm.trans hlk1)
      rw [hsx, hST1] at hsome
      simp [sigilField] at hsome
  obtain ⟨hEfr, hEself, hEb, hEe, hEbt, hEbp, hEsl, hEk⟩ :=
    addEdges_props n R.2.2.2 CH1 hnodUB
  set CH2 : Character := addEdges n R.2.2.2 CH1 with hCH2
  have hlk2 : lookupStat CH2 n = some ST1 := by
    rw [hEfr n hnUB]
    exact hlk1
  rw [updStat_eq CH2 n (fun u => { u with formula := R.1 }) ST1 hlk2] at hplug2
  set ST2 : Stat := (⟨s1, R.1, s2, s4, s5, s6, R.2.1, [], none, none, R.2.2.1, true, true⟩ : Stat)
    with hST2
  have hlk3 : lookupStat (setStat CH2 n ST2) n = some ST2 := by
    rw [lookupStat_setStat_self, hlk2]
    rfl
  obtain ⟨nm, bv, heqN, heqB, hchAeq⟩ :=
    calc_noDeps f (setStat CH2 n ST2) n ST2 chA hlk3 rfl rfl hplug2
  set V : Rat := applyBonuses (setStat CH2 n ST2) ST2.bonuses bv with hV
  set STF : Stat :=
    (⟨s1, R.1, s2, s4, s5, s6, R.2.1, [], some nm, some V, R.2.2.1, true, true⟩ : Stat)
    with hSTF
  have hchA : chA = setStat CH2 n STF := by
    rw [hchAeq, setStat_setStat]
  subst hchA
  set STG : Stat :=
    (⟨s1, s2, s2, s4, s5, s6, R.2.1, [], some nm, some V, R.2.2.1, true, true⟩ : Stat)
    with hSTG
  set STH : Stat :=
    (⟨s1, s2, s2, s4, s5, s6, [], [], some nm, some V, true, true, false⟩ : Stat)
    with hSTH
  have hlkA : lookupStat (setStat CH2 n STF) n = some STF := by
    rw [lookupStat_setStat_self, hlk2]
    rfl
  have hUfacts : ∀ u ∈ R.2.2.2, ∃ su : Stat, lookupStat ch u = some su ∧
      lookupStat (setStat CH2 n STG) u
        = some { su with usedby := su.usedby ++ [n], leaf := false } ∧
      n ∉ su.usedby ∧ su.leaf = su.usedby.isEmpty := by
    intro u hu
    have hne : u ≠ n := fun he => hnUB (he ▸ hu)
    obtain ⟨su, hsu⟩ := lookupStat_isSome_of_key ch u (hsubK u hu)
    obtain ⟨p, hp, hp1, hp2⟩ := lookupStat_mem ch u su hsu
    obtain ⟨hni, hlf⟩ := hinv p hp
    rw [hp2] at hni hlf
    refine ⟨su, hsu, ?_, hni, hlf⟩
    rw [lookupStat_setStat_ne CH2 n u STG hne, hEself u hu, hCH1,
      lookupStat_setStat_ne ch n u ST1 hne, hsu]
    simp only [Option.map_some']
    rw [insertS_of_not_mem n su.usedby hni]
  obtain ⟨chT, hrun, hres, hframeT, hTb, hTe, hTbt, hTbp, hTsl, hTk⟩ :=
    removeUses_restore n ch R.2.2.2 (setStat CH2 n STG) hnodUB hnUB hUfacts
  have hlkT : lookupStat chT n = some STG := by
    rw [hframeT n hnUB, lookupStat_setStat_self, hlk2]
    rfl
  refine ⟨setStat chT n STH, V, nm, ?_, ?_, ?_, ?_, ?_, ?_⟩
  · show unplugStep (fun c m => unplugFuel 0 c m false true) (setStat CH2 n STF) n false false
      = (setStat chT n STH, none)
    unfold unplugStep
    rw [hlkA]
    dsimp only
    rw [if_neg (show ¬((!STF.char) = true) by simp [hSTF])]
    rw [if_neg (show ¬((!STF.usedby.isEmpty && !false && !false) = true) by simp [hSTF])]
    rw [if_neg (show ¬(false = true) by simp)]
    dsimp only
    rw [updStat_eq (setStat CH2 n STF) n (fun u => { u with usedby := [] }) STF hlkA,
      setStat_setStat]
    have hgu : ({ STF with usedby := ([] : List String) } : Stat) = STF := by
      rw [hSTF]
    rw [hgu]
    rw [updStat_eq (setStat CH2 n STF) n (fun u => { u with formula := u.original }) STF hlkA,
      setStat_setStat]
    have hgo : ({ STF with formula := STF.original } : Stat) = STG := by
      rw [hSTF, hSTG]
    rw [hgo]
    have hlkG : lookupStat (setStat CH2 n STG) n = some STG := by
      rw [lookupStat_setStat_self, hlk2]
      rfl
    rw [hlkG]
    dsimp only
    rw [hUeq, hrun]
    dsimp only
    rw [updStat_eq chT n
      (fun u => { u with uses := [], root := true, leaf := true, char := false }) STG hlkT]
  · intro m hm
    rw [lookupStat_setStat_ne chT n m STH hm]
    by_cases hmU : m ∈ R.2.2.2
    · rw [hres m hmU]
    · rw [hframeT m hmU, lookupStat_setStat_ne CH2 n m STG hm, hEfr m hmU, hCH1,
        lookupStat_setStat_ne ch n m ST1 hm]
  · rw [lookupStat_setStat_self, hlkT]
    rfl
  · rw [setStat_bonuses, hTb, setStat_bonuses, hEb, hCH1, setStat_bonuses]
  · rw [setStat_effects, hTe, setStat_effects, hEe, hCH1, setStat_effects]
  · have hlkH : lookupStat (setStat chT n STH) n = some STH := by
      rw [lookupStat_setStat_self, hlkT]
      rfl
    have hkeysH : List.map Prod.fst (setStat chT n STH).stats = List.map Prod.fst ch.stats := by
      rw [setStat_keys, hTk, setStat_keys, hEk, hCH1, setStat_keys]
    have hlkeq : ∀ k ∈ readsE R.1,
        lookupStat (setStat chT n STG) k = lookupStat (setStat ch n ST1) k := by
      intro k hk
      have hkU := hreads k hk
      have hkn : k ≠ n := fun he => hnUB (he ▸ hkU)
      rw [lookupStat_setStat_ne chT n k STG hkn, hres k hkU,
        lookupStat_setStat_ne ch n k ST1 hkn]
    have heqW2 : evalE (setStat chT n STG) R.1 = .ok w :=
      (evalE_congr CH1 (setStat chT n STG) R.1
        (fun k hk => by rw [hlkeq k hk, hCH1])).trans heqW
    obtain ⟨hFfr, hFself, hFb, hFe, hFbt, hFbp, hFsl, hFk⟩ :=
      addEdges_props n R.2.2.2 (setStat chT n STG) hnodUB
    have hlkeq2 : ∀ k ∈ readsE R.1,
        lookupStat (setStat (addEdges n R.2.2.2 (setStat chT n STG)) n STF) k
          = lookupStat (setStat CH2 n ST2) k := by
      intro k hk
      have hkU := hreads k hk
      have hkn : k ≠ n := fun he => hnUB (he ▸ hkU)
      rw [lookupStat_setStat_ne (addEdges n R.2.2.2 (setStat chT n STG)) n k STF hkn,
        hFself k hkU, hlkeq k hk, lookupStat_setStat_ne ch n k ST1 hkn,
        lookupStat_setStat_ne CH2 n k ST2 hkn, hEself k hkU, hCH1,
        lookupStat_setStat_ne ch n k ST1 hkn]
    have heqN2 : evalE (setStat (addEdges n R.2.2.2 (setStat chT n STG)) n STF)
        (toNormal R.1) = .ok nm :=
      (evalE_congr (setStat CH2 n ST2)
        (setStat (addEdges n R.2.2.2 (setStat chT n STG)) n STF) (toNormal R.1)
        (fun k hk => by
          rw [hlkeq2 k (by rw [readsE_toNormal] at hk; exact hk)])).trans heqN
    have heqB2 : evalE (setStat (setStat (addEdges n R.2.2.2 (setStat chT n STG)) n STF) n
        { STF with normal := some nm }) STF.formula = .ok bv :=
      (evalE_congr (setStat (setStat CH2 n ST2) n { ST2 with normal := some nm })
        (setStat (setStat (addEdges n R.2.2.2 (setStat chT n STG)) n STF) n
          { STF with normal := some nm }) STF.formula
        (fun k hk => by
          have hkR : k ∈ readsE R.1 := hk
          have hkn : k ≠ n := fun he => hnUB (he ▸ hreads k hkR)
          rw [lookupStat_setStat_ne (setStat (addEdges n R.2.2.2 (setStat chT n STG)) n STF)
              n k { STF with normal := some nm } hkn,
            hlkeq2 k hkR,
            lookupStat_setStat_ne (setStat CH2 n ST2) n k { ST2 with normal := some nm }
              hkn])).trans heqB
    have hlkBF : lookupStat (setStat (addEdges n R.2.2.2 (setStat chT n STG)) n STF) n
        = some STF := by
      rw [lookupStat_setStat_self, hFfr n hnUB, lookupStat_setStat_self, hlkT]
      rfl
    have hcalc2 := calc_noDeps_ok f (setStat (addEdges n R.2.2.2 (setStat chT n STG)) n STF)
      n STF nm bv hlkBF rfl rfl heqN2 heqB2
    have hstH : ({ STH with uses := R.2.1, root := R.2.2.1, char := true } : Stat) = STG := by
      rw [hSTH, hSTG]
    have haccH : ((STH.formula, STH.uses, STH.root, ([] : List String)) :
        Expr × List String × Bool × List String) = (s2, [], true, []) := by
      rw [hSTH]
    have hgF : ({ STG with formula := R.1 } : Stat) = STF := by
      rw [hSTG, hSTF]
    have hlkF : lookupStat (addEdges n R.2.2.2 (setStat chT n STG)) n = some STG := by
      rw [hFfr n hnUB, lookupStat_setStat_self, hlkT]
      rfl
    have hsteps : plugFuel (f + 1) (setStat chT n STH) n
        = calcFuel (f + 1) (setStat (addEdges n R.2.2.2 (setStat chT n STG)) n STF) n := by
      unfold plugFuel
      rw [hlkH]
      dsimp only
      rw [foldl_resolve_keys, hkeysH, haccH, ← hRdef, hstH, setStat_setStat, heqW2]
      dsimp only
      rw [updStat_eq (addEdges n R.2.2.2 (setStat chT n STG)) n
        (fun u => { u with formula := R.1 }) STG hlkF, hgF]
    rw [hsteps, hcalc2]

set_option maxHeartbeats 8000000

/-- C5 witness: on the concrete scenario context - `dexterity` plugged at 17
and the fresh stat `dex` with formula `($dexterity-10)/2` - plugging `dex`
and then unplugging it succeeds, restores every other stat and both
registries, returns `dex` to its detached record up to the cached
`value`/`normal`, and `dex` can be plugged again. -/
theorem c5_plug_unplug_inverse_witness :
    ∃ (ch2 : Character) (v w : Rat),
      unplugFuel 1 c4ch2 "dex" false false = (ch2, none) ∧
      (∀ m, m ≠ "dex" → lookupStat ch2 m = lookupStat c4ch1 m) ∧
      lookupStat ch2 "dex"
        = some { mkStat "dex" (.div (.sub (.ali .cur "dexterity") (.lit 10)) (.lit 2)) with
            value := some v, normal := some w } ∧
      ch2.bonuses = c4ch1.bonuses ∧ ch2.effects = c4ch1.effects ∧
      (plugFuel 2 ch2 "dex").2 = none :=
  c5_plug_unplug_inverse 1 c4ch1 "dex"
    (mkStat "dex" (.div (.sub (.ali .cur "dexterity") (.lit 10)) (.lit 2))) c4ch2
    (by with_unfolding_all rfl) rfl rfl rfl rfl rfl rfl rfl rfl rfl
    (by with_unfolding_all decide) (by with_unfolding_all decide)

end CharSheet
